import Mathlib

/-!
Verification of the structural UML differ of this repository.

The differ lives twice in the source: standalone in
`scripts/grade_uml_structure.py` (`compare_values`, `compare_methods`,
`compare_fields`, `compare_constructors`, `compare_uml_files`) and embedded
in `main.py` as the generated grading script.  The two copies are
line-for-line identical except for the positional-sequence branch of
`compare_values`; the embedding below therefore carries a Boolean flag
`emb` (`false` = standalone script, `true` = embedded copy) and the two
copies differ only in that one branch, exactly as in the source.

Python values deserialized from JSON are modelled by `Value`; Python
exceptions (TypeError / AttributeError / KeyError) are modelled by the
`Except String` monad.
-/

namespace UmlDiff

/-- A Python value as produced by `json.load`: strings, integers, booleans,
`None`, lists and string-keyed dicts (kept in insertion order). -/
inductive Value where
  | vStr : String → Value
  | vInt : Int → Value
  | vBool : Bool → Value
  | vNull : Value
  | vList : List Value → Value
  | vDict : List (String × Value) → Value

/-- `type(v).__name__` in Python. -/
def typeName : Value → String
  | .vStr _ => "str"
  | .vInt _ => "int"
  | .vBool _ => "bool"
  | .vNull => "NoneType"
  | .vList _ => "list"
  | .vDict _ => "dict"

/-- First binding of a string key in an association list: lookup in a
Python dict with `str` keys (Python dicts are duplicate-free, so the first
match is the only one). -/
def slookup (k : String) : List (String × Value) → Option Value
  | [] => none
  | (k', v) :: t => if k' == k then some v else slookup k t

mutual

/-- Python `==` on values.  `True == 1` and `False == 0` hold in Python
because `bool` is an `int` subclass; across other kinds `==` is `False`. -/
def pyEq : Value → Value → Bool
  | .vStr a, .vStr b => a == b
  | .vInt a, .vInt b => a == b
  | .vBool a, .vBool b => a == b
  | .vInt a, .vBool b => a == (if b then 1 else 0)
  | .vBool a, .vInt b => (if a then (1 : Int) else 0) == b
  | .vNull, .vNull => true
  | .vList a, .vList b => pyEqList a b
  | .vDict a, .vDict b => pyEqDict a b
  | _, _ => false

/-- Python `==` on lists: equal length and element-wise `==`. -/
def pyEqList : List Value → List Value → Bool
  | [], [] => true
  | a :: as', b :: bs => pyEq a b && pyEqList as' bs
  | _, _ => false

/-- Python `==` on dicts: same size, and every key of the left dict is
bound in the right dict to an `==`-equal value (order-insensitive; JSON
dicts are duplicate-free, which this model assumes). -/
def pyEqDict : List (String × Value) → List (String × Value) → Bool
  | a, b => a.length == b.length && pyEqDictSub a b

/-- Helper of `pyEqDict`: check every binding of the first dict against
the second. -/
def pyEqDictSub : List (String × Value) → List (String × Value) → Bool
  | [], _ => true
  | (k, v) :: t, b =>
    (match slookup k b with
     | some w => pyEq v w
     | none => false) && pyEqDictSub t b

end

mutual

/-- Python `<` on values, raising `TypeError` (modelled as `.error`) on
unordered pairs: mixed kinds, `None`, and dicts.  Numbers and booleans are
mutually comparable (`True` counts as 1, `False` as 0). -/
def pyLt : Value → Value → Except String Bool
  | .vStr a, .vStr b => .ok (decide (a < b))
  | .vInt a, .vInt b => .ok (decide (a < b))
  | .vInt a, .vBool b => .ok (decide (a < (if b then 1 else 0)))
  | .vBool a, .vInt b => .ok (decide ((if a then (1 : Int) else 0) < b))
  | .vBool a, .vBool b => .ok (decide ((if a then (1 : Int) else 0) < (if b then 1 else 0)))
  | .vList a, .vList b => pyLtList a b
  | _, _ => .error "TypeError"

/-- Python `<` on lists: lexicographic, first non-`==` pair decides;
a strict prefix is smaller. -/
def pyLtList : List Value → List Value → Except String Bool
  | [], [] => .ok false
  | [], _ :: _ => .ok true
  | _ :: _, [] => .ok false
  | a :: as', b :: bs => if pyEq a b then pyLtList as' bs else pyLt a b

end

/-- Insert into a sorted list after all smaller-or-tied elements, raising
on an incomparable pair, as Python's `<`-based sort does. -/
def pyInsertOne (x : Value) : List Value → Except String (List Value)
  | [] => .ok [x]
  | y :: ys => do
    let lt ← pyLt x y
    if lt then
      .ok (x :: y :: ys)
    else do
      let r ← pyInsertOne x ys
      .ok (y :: r)

/-- Python `sorted`, modelled as insertion sort over `pyLt`.  Like
`sorted`, it performs no comparison on lists of length ≤ 1 and raises
`TypeError` as soon as an incomparable pair is compared; the inputs this
development evaluates it on (all-string lists, and the all-`None` list of
the C5 counterexample) raise or succeed exactly as CPython's sort does. -/
def pySort : List Value → Except String (List Value)
  | [] => .ok []
  | x :: xs => do
    let s ← pySort xs
    pyInsertOne x s

mutual

/-- Python `repr` of a value (strings quoted), used for values nested in
containers; the plain strings handled here need no escaping. -/
def pyRepr : Value → String
  | .vStr s => "'" ++ s ++ "'"
  | .vInt n => toString n
  | .vBool b => if b then "True" else "False"
  | .vNull => "None"
  | .vList l => "[" ++ pyReprList l ++ "]"
  | .vDict kvs => "\x7b" ++ pyReprDict kvs ++ "\x7d"

def pyReprList : List Value → String
  | [] => ""
  | [v] => pyRepr v
  | v :: t => pyRepr v ++ ", " ++ pyReprList t

def pyReprDict : List (String × Value) → String
  | [] => ""
  | [(k, v)] => "'" ++ k ++ "': " ++ pyRepr v
  | (k, v) :: t => "'" ++ k ++ "': " ++ pyRepr v ++ ", " ++ pyReprDict t

end

/-- Python `str` of a value, as an f-string renders it: a bare string
stays unquoted, everything else renders as its `repr`. -/
def pyStr : Value → String
  | .vStr s => s
  | v => pyRepr v

/-- `s.endswith(suffix)`. -/
def strEndsWith (s suffix : String) : Bool :=
  suffix.data.isSuffixOf s.data

/-- First binding of a Python-valued key in an association list, matched by
Python `==`, as a dict built at runtime does (such dicts are duplicate-free
by construction, so the first match is the only one). -/
def pyLookup (k : Value) : List (Value × Value) → Option Value
  | [] => none
  | (k', v) :: t => if pyEq k' k then some v else pyLookup k t

/-- One Python dict assignment `d[k] = v` on an insertion-ordered
association list: overwriting an `==`-equal key keeps the original key and
its position, as CPython dicts do; a new key is appended. -/
def setLastPy (k : Value) (v : Value) : List (Value × Value) → List (Value × Value)
  | [] => [(k, v)]
  | (k', v') :: t => if pyEq k' k then (k', v) :: t else (k', v') :: setLastPy k v t

/-- Build a Python dict from key/value pairs in order: the comprehension
`{f(m): m for m in ms}` with its left-to-right, last-write-wins
semantics. -/
def corpBuild (acc : List (Value × Value)) : List (Value × Value) → List (Value × Value)
  | [] => acc
  | (k, v) :: t => corpBuild (setLastPy k v acc) t

/-- The three keyed collections of a class structure. -/
inductive CollKind where
  | methods
  | fields
  | constructors

/-- `tuple(x)` in Python: lists stay, strings split into characters, dicts
yield their keys, anything else raises `TypeError`. -/
def pyTuple : Value → Except String (List Value)
  | .vList l => .ok l
  | .vStr s => .ok (s.data.map fun c => .vStr (String.singleton c))
  | .vDict kvs => .ok (kvs.map fun kv => .vStr kv.1)
  | _ => .error "TypeError"

/-- `hash(x)` raises `TypeError` on Python lists and dicts; scalars are
hashable. -/
def ensureHashable : Value → Except String Unit
  | .vList _ => .error "TypeError"
  | .vDict _ => .error "TypeError"
  | _ => .ok ()

/-- Hashability of every element of a tuple, checked left to right as
hashing a key tuple does. -/
def hashableAll : List Value → Except String Unit
  | [] => .ok ()
  | x :: t => do
    ensureHashable x
    hashableAll t

/-- The key one collection entry is stored under, per
`compare_methods` / `compare_fields` / `compare_constructors`:
`(m.get('name', ''), tuple(m.get('params', [])))`, `f.get('name', '')`,
`tuple(c.get('params', []))`.  A method or constructor key is encoded as
`vList [name, vList params]` resp. `vList params` (Python uses tuples;
tuple `==` is element-wise like list `==`, and within one collection all
keys have the same shape, so the encoding is faithful).  A non-dict entry
raises `AttributeError` (`.get` on a non-dict); an unhashable name or
parameter raises `TypeError` when the dict comprehension inserts the
key. -/
def collKeyFn (kind : CollKind) (m : Value) : Except String Value :=
  match m with
  | .vDict kvs =>
    match kind with
    | .methods => do
      let nm := (slookup "name" kvs).getD (.vStr "")
      let ps ← pyTuple ((slookup "params" kvs).getD (.vList []))
      ensureHashable nm
      hashableAll ps
      .ok (.vList [nm, .vList ps])
    | .fields => do
      let nm := (slookup "name" kvs).getD (.vStr "")
      ensureHashable nm
      .ok nm
    | .constructors => do
      let ps ← pyTuple ((slookup "params" kvs).getD (.vList []))
      hashableAll ps
      .ok (.vList ps)
  | _ => .error "AttributeError"

/-- Pair every entry of a collection with its key, left to right, stopping
at the first entry whose key construction raises — the evaluation order of
the dict comprehensions in the three `compare_*` functions. -/
def keyPairs (kind : CollKind) : List Value → Except String (List (Value × Value))
  | [] => .ok []
  | m :: t =>
    match collKeyFn kind m with
    | .error e => .error e
    | .ok k =>
      match keyPairs kind t with
      | .error e => .error e
      | .ok ps => .ok ((k, m) :: ps)

/-- The key→entry dict `{keyFn(m): m for m in ms}` of one side of a keyed
collection. -/
def buildKeyMap (kind : CollKind) (ms : List Value) : Except String (List (Value × Value)) :=
  match keyPairs kind ms with
  | .error e => .error e
  | .ok ps => .ok (corpBuild [] ps)

/-- `','.join(xs)` — every element must be a string, else `TypeError`. -/
def strParts : List Value → Except String (List String)
  | [] => .ok []
  | .vStr s :: t => do
    let r ← strParts t
    .ok (s :: r)
  | _ :: _ => .error "TypeError"

/-- `','.join(params)` of a key's parameter tuple. -/
def joinComma (vs : List Value) : Except String String := do
  let ps ← strParts vs
  .ok (String.intercalate "," ps)

/-- The extended path of a matched keyed-collection pair:
`f"{path}.{sig[0]}({','.join(sig[1])})"` for methods, `f"{path}.{name}"`
for fields, `f"{path}.constructor({','.join(params)})"` for constructors.
Joining a non-string parameter raises. -/
def matchedPath (kind : CollKind) (path : String) (sig : Value) : Except String String :=
  match kind, sig with
  | .methods, .vList [nm, .vList ps] => do
    let j ← joinComma ps
    .ok (path ++ "." ++ pyStr nm ++ "(" ++ j ++ ")")
  | .fields, nm => .ok (path ++ "." ++ pyStr nm)
  | .constructors, .vList ps => do
    let j ← joinComma ps
    .ok (path ++ ".constructor(" ++ j ++ ")")
  | _, _ => .error "TypeError"

/-- Discrepancy for a key present only in the reference side. -/
def missingItemMsg (kind : CollKind) (path : String) (sig : Value) : String :=
  match kind, sig with
  | .methods, .vList [nm, .vList ps] =>
    path ++ " - Missing method: " ++ pyStr nm ++ " with params " ++ pyRepr (.vList ps)
  | .methods, _ => path ++ " - Missing method: ? with params ?"
  | .fields, nm => path ++ " - Missing field: " ++ pyStr nm
  | .constructors, .vList ps =>
    path ++ " - Missing constructor with params " ++ pyRepr (.vList ps)
  | .constructors, _ => path ++ " - Missing constructor with params ?"

/-- Discrepancy for a key present only in the candidate side. -/
def extraItemMsg (kind : CollKind) (path : String) (sig : Value) : String :=
  match kind, sig with
  | .methods, .vList [nm, .vList ps] =>
    path ++ " - Extra method: " ++ pyStr nm ++ " with params " ++ pyRepr (.vList ps)
  | .methods, _ => path ++ " - Extra method: ? with params ?"
  | .fields, nm => path ++ " - Extra field: " ++ pyStr nm
  | .constructors, .vList ps =>
    path ++ " - Extra constructor with params " ++ pyRepr (.vList ps)
  | .constructors, _ => path ++ " - Extra constructor with params ?"

/-- `"<path> - Type mismatch: expected <refKind>, got <candKind>"`. -/
def typeMismatchMsg (path : String) (r s : Value) : String :=
  path ++ " - Type mismatch: expected " ++ typeName r ++ ", got " ++ typeName s

/-- `"<path> - Value mismatch: expected <ref>, got <cand>"`. -/
def valueMismatchMsg (path : String) (r s : Value) : String :=
  path ++ " - Value mismatch: expected " ++ pyStr r ++ ", got " ++ pyStr s

/-- `"<path> - Content mismatch: expected <sortedRef>, got <sortedCand>"`. -/
def contentMismatchMsg (path : String) (sr ss : List Value) : String :=
  path ++ " - Content mismatch: expected " ++ pyStr (.vList sr) ++ ", got " ++ pyStr (.vList ss)

/-- Length-mismatch discrepancy of the standalone script, which also
prints the item counts. -/
def lengthMsgStandalone (path : String) (rl sl : List Value) : String :=
  path ++ " - Length mismatch: expected " ++ pyStr (.vList rl) ++ " (" ++ toString rl.length
    ++ " items), got " ++ pyStr (.vList sl) ++ " (" ++ toString sl.length ++ " items)"

/-- Length-mismatch discrepancy of the copy embedded in `main.py`. -/
def lengthMsgEmb (path : String) (rl sl : List Value) : String :=
  path ++ " - Length mismatch: expected " ++ pyStr (.vList rl) ++ ", got " ++ pyStr (.vList sl)

/-- The `Extra key` pass of the dict branch: candidate-only keys in
candidate order. -/
def dictExtras (rkvs skvs : List (String × Value)) (path : String) : List String :=
  (skvs.filter fun kv => (slookup kv.1 rkvs).isNone).map
    fun kv => path ++ "." ++ kv.1 ++ " - Extra key"

/-- The `Extra <kind>` pass of a keyed collection: candidate-only keys in
candidate dict order. -/
def keyedExtras (kind : CollKind) (rm sm : List (Value × Value)) (path : String) : List String :=
  (sm.filter fun kv => (pyLookup kv.1 rm).isNone).map
    fun kv => extraItemMsg kind path kv.1

theorem slookup_sizeOf {k : String} {kvs : List (String × Value)} {v : Value}
    (h : slookup k kvs = some v) : sizeOf v < sizeOf kvs := by
  induction kvs with
  | nil => simp [slookup] at h
  | cons kv t ih =>
    obtain ⟨k', v'⟩ := kv
    simp only [slookup] at h
    split at h
    · cases h
      simp only [List.cons.sizeOf_spec, Prod.mk.sizeOf_spec]
      omega
    · have := ih h
      simp only [List.cons.sizeOf_spec, Prod.mk.sizeOf_spec]
      omega

theorem pyLookup_sizeOf {k : Value} {m : List (Value × Value)} {v : Value}
    (h : pyLookup k m = some v) : sizeOf v < sizeOf (m.map Prod.snd) := by
  induction m with
  | nil => simp [pyLookup] at h
  | cons kv t ih =>
    obtain ⟨k', v'⟩ := kv
    simp only [pyLookup] at h
    split at h
    · cases h
      simp only [List.map_cons, List.cons.sizeOf_spec]
      omega
    · have := ih h
      simp only [List.map_cons, List.cons.sizeOf_spec]
      omega

theorem setLastPy_sizeOf (k v : Value) (acc : List (Value × Value)) :
    sizeOf ((setLastPy k v acc).map Prod.snd) ≤ 1 + sizeOf v + sizeOf (acc.map Prod.snd) := by
  induction acc with
  | nil => simp [setLastPy]
  | cons kv t ih =>
    obtain ⟨k', v'⟩ := kv
    simp only [setLastPy]
    split
    · simp only [List.map_cons, List.cons.sizeOf_spec]
      omega
    · simp only [List.map_cons, List.cons.sizeOf_spec]
      omega

theorem corpBuild_sizeOf (ps acc : List (Value × Value)) :
    sizeOf ((corpBuild acc ps).map Prod.snd) + 1
      ≤ sizeOf (acc.map Prod.snd) + sizeOf (ps.map Prod.snd) := by
  induction ps generalizing acc with
  | nil => simp [corpBuild]
  | cons kv t ih =>
    obtain ⟨k, v⟩ := kv
    simp only [corpBuild, List.map_cons, List.cons.sizeOf_spec]
    have h1 := ih (setLastPy k v acc)
    have h2 := setLastPy_sizeOf k v acc
    omega

theorem keyPairs_snd {kind : CollKind} {ms : List Value} {ps : List (Value × Value)}
    (h : keyPairs kind ms = .ok ps) : ps.map Prod.snd = ms := by
  induction ms generalizing ps with
  | nil => simp only [keyPairs] at h; cases h; rfl
  | cons m t ih =>
    simp only [keyPairs] at h
    split at h
    · cases h
    · split at h
      · cases h
      · cases h
        simp [ih (by assumption)]

theorem buildKeyMap_sizeOf {kind : CollKind} {ms : List Value} {m : List (Value × Value)}
    (h : buildKeyMap kind ms = .ok m) : sizeOf (m.map Prod.snd) ≤ sizeOf ms := by
  simp only [buildKeyMap] at h
  split at h
  · cases h
  · rename_i ps hps
    cases h
    have h1 := corpBuild_sizeOf ps []
    have h2 := keyPairs_snd hps
    simp only [List.map_nil] at h1
    rw [h2] at h1
    simp only [List.nil.sizeOf_spec] at h1
    omega

mutual

/-- `compare_values(ref_val, stu_val, path)` of both differs.  `emb = false`
is the standalone script `scripts/grade_uml_structure.py`; `emb = true` is
the copy embedded in `main.py`.  The two copies differ only in the
positional branch: on a length mismatch the standalone script records the
discrepancy (with item counts) and still recurses over the zipped common
prefix, while the embedded copy emits the single discrepancy and stops. -/
def compare_values (emb : Bool) (ref_val stu_val : Value) (path : String) :
    Except String (List String) :=
  if typeName ref_val != typeName stu_val then
    .ok [typeMismatchMsg path ref_val stu_val]
  else
    match ref_val, stu_val with
    | .vDict rkvs, .vDict skvs => do
      let ds ← compareDictRef emb rkvs skvs path
      .ok (ds ++ dictExtras rkvs skvs path)
    | .vList rl, .vList sl =>
      if strEndsWith path ".methods" then
        compareColl emb .methods rl sl path
      else if strEndsWith path ".fields" then
        compareColl emb .fields rl sl path
      else if strEndsWith path ".constructors" then
        compareColl emb .constructors rl sl path
      else if strEndsWith path ".extends" || strEndsWith path ".implements" then do
        let sr ← pySort rl
        let ss ← pySort sl
        .ok (if pyEqList sr ss then [] else [contentMismatchMsg path sr ss])
      else
        if rl.length != sl.length then
          if emb then
            .ok [lengthMsgEmb path rl sl]
          else do
            let zs ← compareZip emb rl sl path 0
            .ok (lengthMsgStandalone path rl sl :: zs)
        else
          compareZip emb rl sl path 0
    | r, s => .ok (if pyEq r s then [] else [valueMismatchMsg path r s])
termination_by (sizeOf ref_val + sizeOf stu_val, 0)
decreasing_by
  all_goals try simp_wf
  all_goals apply Prod.Lex.left
  all_goals omega

/-- The reference pass of the dict branch of `compare_values`: per
reference key in order, a `Missing key` discrepancy or the recursive
comparison of the shared binding. -/
def compareDictRef (emb : Bool) (rkvs skvs : List (String × Value)) (path : String) :
    Except String (List String) :=
  match rkvs with
  | [] => .ok []
  | (k, rv) :: rest =>
    match hq : slookup k skvs with
    | none => do
      let ds ← compareDictRef emb rest skvs path
      .ok ((path ++ "." ++ k ++ " - Missing key") :: ds)
    | some sv => do
      let d ← compare_values emb rv sv (path ++ "." ++ k)
      let ds ← compareDictRef emb rest skvs path
      .ok (d ++ ds)
termination_by (sizeOf rkvs + sizeOf skvs, 0)
decreasing_by
  all_goals try simp_wf
  all_goals apply Prod.Lex.left
  all_goals first
    | omega
    | (have h9 := slookup_sizeOf hq
       omega)

/-- `compare_methods` / `compare_fields` / `compare_constructors`: build
the key→entry dict of each side, run the reference pass, then append the
`Extra` pass. -/
def compareColl (emb : Bool) (kind : CollKind) (rl sl : List Value) (path : String) :
    Except String (List String) :=
  match hr : buildKeyMap kind rl with
  | .error e => .error e
  | .ok rm =>
    match hs : buildKeyMap kind sl with
    | .error e => .error e
    | .ok sm => do
      let ds ← compareKeyedRef emb kind rm sm path
      .ok (ds ++ keyedExtras kind rm sm path)
termination_by (sizeOf rl + sizeOf sl, 1)
decreasing_by
  all_goals try simp_wf
  all_goals rw [Prod.lex_def]
  all_goals have h1 := buildKeyMap_sizeOf hr
  all_goals have h2 := buildKeyMap_sizeOf hs
  all_goals omega

/-- The reference pass of a keyed collection: per reference signature in
dict order, a `Missing` discrepancy or the recursive comparison of the
matched pair at the signature-extended path. -/
def compareKeyedRef (emb : Bool) (kind : CollKind) (rm sm : List (Value × Value))
    (path : String) : Except String (List String) :=
  match rm with
  | [] => .ok []
  | (sig, rv) :: rest =>
    match hq : pyLookup sig sm with
    | none => do
      let ds ← compareKeyedRef emb kind rest sm path
      .ok (missingItemMsg kind path sig :: ds)
    | some sv =>
      match hp : matchedPath kind path sig with
      | .error e => .error e
      | .ok mp => do
        let d ← compare_values emb rv sv mp
        let ds ← compareKeyedRef emb kind rest sm path
        .ok (d ++ ds)
termination_by (sizeOf (rm.map Prod.snd) + sizeOf (sm.map Prod.snd), 0)
decreasing_by
  all_goals try simp_wf
  all_goals apply Prod.Lex.left
  all_goals try simp only [List.map_cons, List.cons.sizeOf_spec]
  all_goals first
    | omega
    | (have h9 := pyLookup_sizeOf hq
       omega)

/-- The positional branch's element-wise loop:
`for i, (ref_item, stu_item) in enumerate(zip(ref_val, stu_val))`. -/
def compareZip (emb : Bool) (rl sl : List Value) (path : String) (i : Nat) :
    Except String (List String) :=
  match rl, sl with
  | [], _ => .ok []
  | _ :: _, [] => .ok []
  | r :: rt, s :: st => do
    let d ← compare_values emb r s (path ++ "[" ++ toString i ++ "]")
    let ds ← compareZip emb rt st path (i + 1)
    .ok (d ++ ds)
termination_by (sizeOf rl + sizeOf sl, 0)
decreasing_by
  all_goals try simp_wf
  all_goals apply Prod.Lex.left
  all_goals omega

end

/-- `compare_methods(ref_methods, stu_methods, path)` — identical in both
copies of the differ; `emb` selects whose `compare_values` recursion it
feeds into. -/
def compare_methods (emb : Bool) (rl sl : List Value) (path : String) :
    Except String (List String) :=
  compareColl emb .methods rl sl path

/-- `compare_fields(ref_fields, stu_fields, path)`. -/
def compare_fields (emb : Bool) (rl sl : List Value) (path : String) :
    Except String (List String) :=
  compareColl emb .fields rl sl path

/-- `compare_constructors(ref_ctors, stu_ctors, path)`. -/
def compare_constructors (emb : Bool) (rl sl : List Value) (path : String) :
    Except String (List String) :=
  compareColl emb .constructors rl sl path

/-- Substring containment on character lists (`needle in hay` for Python
strings). -/
def listContainsSub : List Char → List Char → Bool
  | [], needle => needle.isEmpty
  | h :: t, needle => needle.isPrefixOf (h :: t) || listContainsSub t needle

/-- The guard `"name" in item` of the corpus normalization: key test on a
dict, element test on a list, substring test on a string, and `TypeError`
(not iterable) otherwise. -/
def hasNameAttr : Value → Except String Bool
  | .vDict kvs => .ok (slookup "name" kvs).isSome
  | .vList l => .ok (l.any fun x => pyEq x (.vStr "name"))
  | .vStr s => .ok (listContainsSub s.data "name".data)
  | _ => .error "TypeError"

/-- `item["name"]` plus the hashability check performed when the result is
inserted as a dict key.  Indexing a list or a string with a string raises
`TypeError`; the `KeyError` arm is unreachable under the `"name" in item`
guard. -/
def getNameAttr : Value → Except String Value
  | .vDict kvs =>
    match slookup "name" kvs with
    | some n =>
      match ensureHashable n with
      | .ok _ => .ok n
      | .error e => .error e
    | none => .error "KeyError"
  | _ => .error "TypeError"

/-- The filtered key/value pairs of
`{item["name"]: item for item in data if "name" in item}`, in input
order. -/
def corpusPairs : List Value → Except String (List (Value × Value))
  | [] => .ok []
  | item :: t =>
    match hasNameAttr item with
    | .error e => .error e
    | .ok false => corpusPairs t
    | .ok true =>
      match getNameAttr item with
      | .error e => .error e
      | .ok n =>
        match corpusPairs t with
        | .error e => .error e
        | .ok ps => .ok ((n, item) :: ps)

/-- Normalization of a sequence-shaped corpus into name-keyed form,
dropping entries without a `name` (last write wins on duplicate names). -/
def normalizeCorpus (items : List Value) : Except String (List (Value × Value)) :=
  match corpusPairs items with
  | .error e => .error e
  | .ok ps => .ok (corpBuild [] ps)

/-- A corpus argument of `compare_uml_files` as a Python-keyed dict: a
mapping is taken as is (JSON string keys), a sequence is normalized, and
iterating any other value raises (`TypeError`; the dead string case, which
Python would iterate character-wise, is out of the callers' reach). -/
def toCorpus : Value → Except String (List (Value × Value))
  | .vDict kvs => .ok (kvs.map fun kv => (Value.vStr kv.1, kv.2))
  | .vList items => normalizeCorpus items
  | _ => .error "TypeError"

/-- The reference pass of `compare_uml_files`: per reference class name, a
`Missing class` discrepancy or the per-class comparison at
`"Class <name>"`. -/
def classLoopRef (emb : Bool) : List (Value × Value) → List (Value × Value) →
    Except String (List String)
  | [], _ => .ok []
  | (n, rv) :: rest, sm =>
    match pyLookup n sm with
    | none => do
      let ds ← classLoopRef emb rest sm
      .ok (("Missing class: " ++ pyStr n) :: ds)
    | some sv => do
      let d ← compare_values emb rv sv ("Class " ++ pyStr n)
      let ds ← classLoopRef emb rest sm
      .ok (d ++ ds)

/-- The `Extra class` pass of `compare_uml_files`. -/
def corpusExtras (rm sm : List (Value × Value)) : List String :=
  (sm.filter fun kv => (pyLookup kv.1 rm).isNone).map
    fun kv => "Extra class: " ++ pyStr kv.1

/-- `compare_uml_files(ref_data, student_data)` of both differs (the two
copies are identical; `emb` selects the `compare_values` they recurse
into). -/
def compare_uml_files (emb : Bool) (ref_data student_data : Value) :
    Except String (List String) := do
  let rm ← toCorpus ref_data
  let sm ← toCorpus student_data
  let ds ← classLoopRef emb rm sm
  .ok (ds ++ corpusExtras rm sm)

/-- All elements of a list are strings. -/
def allVStr : List Value → Bool
  | [] => true
  | .vStr _ :: t => allVStr t
  | _ :: _ => false

/-- A collection key whose components are all strings (the shape §6
prescribes); for such keys Python `==` coincides with structural
equality. -/
def goodKey (kind : CollKind) (k : Value) : Bool :=
  match kind, k with
  | .methods, .vList [.vStr _, .vList ps] => allVStr ps
  | .methods, _ => false
  | .fields, .vStr _ => true
  | .fields, _ => false
  | .constructors, .vList ps => allVStr ps
  | .constructors, _ => false

/-- Pairwise-distinct string keys of a mapping. -/
def distinctStrKeys : List String → Bool
  | [] => true
  | k :: t => !(t.contains k) && distinctStrKeys t

mutual

/-- Hereditary well-formedness of one input tree relative to the path it
is compared at: mapping keys are pairwise distinct (§3), every sequence
sitting at a keyed-collection path consists of mappings with string names
and string parameter lists, every sequence at an unordered-set path
consists of strings (§6), and the conditions recur along exactly the paths
the differ extends.  This is the sense in which an input is a "valid" /
"well-formed" StructuredValue (§7, §8): §6's shape imposed at every
nesting level the traversal can reach, not only on the top-level
conventional attributes. -/
def safeV : Value → String → Bool
  | .vStr _, _ => true
  | .vInt _, _ => true
  | .vBool _, _ => true
  | .vNull, _ => true
  | .vDict kvs, p => distinctStrKeys (kvs.map Prod.fst) && safeDict kvs p
  | .vList l, p =>
    if strEndsWith p ".methods" then safeKeyed .methods l p
    else if strEndsWith p ".fields" then safeKeyed .fields l p
    else if strEndsWith p ".constructors" then safeKeyed .constructors l p
    else if strEndsWith p ".extends" || strEndsWith p ".implements" then allVStr l
    else safeZip l p 0
termination_by v _ => sizeOf v

/-- Well-formedness of a mapping's bindings at their extended paths. -/
def safeDict : List (String × Value) → String → Bool
  | [], _ => true
  | (k, v) :: t, p => safeV v (p ++ "." ++ k) && safeDict t p
termination_by kvs _ => sizeOf kvs

/-- Well-formedness of positional elements at their indexed paths. -/
def safeZip : List Value → String → Nat → Bool
  | [], _, _ => true
  | x :: t, p, i => safeV x (p ++ "[" ++ toString i ++ "]") && safeZip t p (i + 1)
termination_by l _ _ => sizeOf l

/-- Well-formedness of keyed-collection entries: each entry's key
construction succeeds, the key is string-shaped, and the entry is
well-formed at its signature-extended path. -/
def safeKeyed (kind : CollKind) : List Value → String → Bool
  | [], _ => true
  | m :: t, p =>
    (match collKeyFn kind m with
     | .error _ => false
     | .ok k =>
       goodKey kind k &&
       (match matchedPath kind p k with
        | .error _ => false
        | .ok mp => safeV m mp)) && safeKeyed kind t p
termination_by l _ => sizeOf l

end

mutual

/-- All positional sequence pairs reached by the comparison of `r` and `s`
at `path` have equal lengths — the condition under which the standalone
and embedded differs coincide (they differ only in the positional
length-mismatch branch). -/
def lenOk (r s : Value) (path : String) : Bool :=
  if typeName r != typeName s then true
  else
    match r, s with
    | .vDict rkvs, .vDict skvs => lenOkDict rkvs skvs path
    | .vList rl, .vList sl =>
      if strEndsWith path ".methods" then lenOkColl .methods rl sl path
      else if strEndsWith path ".fields" then lenOkColl .fields rl sl path
      else if strEndsWith path ".constructors" then lenOkColl .constructors rl sl path
      else if strEndsWith path ".extends" || strEndsWith path ".implements" then true
      else rl.length == sl.length && lenOkZip rl sl path 0
    | _, _ => true
termination_by (sizeOf r + sizeOf s, 0)
decreasing_by
  all_goals try simp_wf
  all_goals apply Prod.Lex.left
  all_goals omega

/-- `lenOk` through a keyed collection's maps (a key-construction error
makes both variants fail identically, so no condition is imposed). -/
def lenOkColl (kind : CollKind) (rl sl : List Value) (path : String) : Bool :=
  match hr : buildKeyMap kind rl with
  | .error _ => true
  | .ok rm =>
    match hs : buildKeyMap kind sl with
    | .error _ => true
    | .ok sm => lenOkKeyed kind rm sm path
termination_by (sizeOf rl + sizeOf sl, 1)
decreasing_by
  all_goals try simp_wf
  all_goals rw [Prod.lex_def]
  all_goals have h1 := buildKeyMap_sizeOf hr
  all_goals have h2 := buildKeyMap_sizeOf hs
  all_goals omega

/-- `lenOk` on the shared bindings of two mappings. -/
def lenOkDict (rkvs skvs : List (String × Value)) (path : String) : Bool :=
  match rkvs with
  | [] => true
  | (k, v) :: t =>
    (match hq : slookup k skvs with
     | none => true
     | some sv => lenOk v sv (path ++ "." ++ k)) && lenOkDict t skvs path
termination_by (sizeOf rkvs + sizeOf skvs, 0)
decreasing_by
  all_goals try simp_wf
  all_goals apply Prod.Lex.left
  all_goals first
    | omega
    | (have h9 := slookup_sizeOf hq
       omega)

/-- `lenOk` on the matched pairs of a keyed collection. -/
def lenOkKeyed (kind : CollKind) (rm sm : List (Value × Value)) (path : String) : Bool :=
  match rm with
  | [] => true
  | (sig, rv) :: rest =>
    (match hq : pyLookup sig sm with
     | none => true
     | some sv =>
       match matchedPath kind path sig with
       | .error _ => true
       | .ok mp => lenOk rv sv mp) && lenOkKeyed kind rest sm path
termination_by (sizeOf (rm.map Prod.snd) + sizeOf (sm.map Prod.snd), 0)
decreasing_by
  all_goals try simp_wf
  all_goals apply Prod.Lex.left
  all_goals try simp only [List.map_cons, List.cons.sizeOf_spec]
  all_goals first
    | omega
    | (have h9 := pyLookup_sizeOf hq
       omega)

/-- `lenOk` on zipped positional elements. -/
def lenOkZip (rl sl : List Value) (path : String) (i : Nat) : Bool :=
  match rl, sl with
  | r :: rt, s :: st =>
    lenOk r s (path ++ "[" ++ toString i ++ "]") && lenOkZip rt st path (i + 1)
  | _, _ => true
termination_by (sizeOf rl + sizeOf sl, 0)
decreasing_by
  all_goals try simp_wf
  all_goals apply Prod.Lex.left
  all_goals omega

end

/-- `lenOk` lifted to the matched classes of two corpora. -/
def lenOkClasses : List (Value × Value) → List (Value × Value) → Bool
  | [], _ => true
  | (n, rv) :: rest, sm =>
    (match pyLookup n sm with
     | none => true
     | some sv => lenOk rv sv ("Class " ++ pyStr n)) && lenOkClasses rest sm

/-- `lenOk` lifted to two corpus-level inputs of `compare_uml_files`. -/
def lenOkFiles (rd sd : Value) : Bool :=
  match toCorpus rd with
  | .error _ => true
  | .ok rm =>
    match toCorpus sd with
    | .error _ => true
    | .ok sm => lenOkClasses rm sm

/-- Modelled from the spec: a §6 field — a mapping with a string `name`. -/
def fieldShape6 : Value → Bool
  | .vDict kvs =>
    match slookup "name" kvs with
    | some (.vStr _) => true
    | _ => false
  | _ => false

/-- Modelled from the spec: a §6 method — a mapping with a string `name`
and a `params` sequence of strings. -/
def methodShape6 : Value → Bool
  | .vDict kvs =>
    (match slookup "name" kvs with
     | some (.vStr _) => true
     | _ => false) &&
    (match slookup "params" kvs with
     | some (.vList l) => allVStr l
     | _ => false)
  | _ => false

/-- Modelled from the spec: a §6 constructor — a mapping with a `params`
sequence of strings. -/
def ctorShape6 : Value → Bool
  | .vDict kvs =>
    match slookup "params" kvs with
    | some (.vList l) => allVStr l
    | _ => false
  | _ => false

/-- A Python value of a kind other than list and dict. -/
def isScalar : Value → Bool
  | .vList _ => false
  | .vDict _ => false
  | _ => true

theorem strEndsWith_disjoint {p a b : String}
    (hlen : a.data.length ≤ b.data.length)
    (hne : a.data.reverse.isPrefixOf b.data.reverse = false)
    (ha : strEndsWith p a = true) (hb : strEndsWith p b = true) : False := by
  simp only [strEndsWith, List.isSuffixOf, List.isPrefixOf_iff_prefix] at ha hb
  have hpre : a.data.reverse <+: b.data.reverse :=
    List.prefix_of_prefix_length_le ha hb (by simpa using hlen)
  rw [← List.isPrefixOf_iff_prefix] at hpre
  rw [hpre] at hne
  cases hne

theorem pyEq_vStr_left {s : String} {b : Value} :
    pyEq (.vStr s) b = true ↔ b = .vStr s := by
  cases b <;> simp [pyEq] <;> exact eq_comm

theorem pyEq_vStr_right {s : String} {b : Value} :
    pyEq b (.vStr s) = true ↔ b = .vStr s := by
  cases b <;> simp [pyEq]

theorem pyEqList_allVStr_left {ps : List Value} (h : allVStr ps = true) {bs : List Value} :
    pyEqList ps bs = true ↔ bs = ps := by
  induction ps generalizing bs with
  | nil => cases bs <;> simp [pyEqList]
  | cons x t ih =>
    cases x <;> simp [allVStr] at h
    cases bs with
    | nil => simp [pyEqList]
    | cons y bs' => simp [pyEqList, pyEq_vStr_left, ih h]

theorem pyEqList_allVStr_right {ps : List Value} (h : allVStr ps = true) {bs : List Value} :
    pyEqList bs ps = true ↔ bs = ps := by
  induction ps generalizing bs with
  | nil => cases bs <;> simp [pyEqList]
  | cons x t ih =>
    cases x <;> simp [allVStr] at h
    cases bs with
    | nil => simp [pyEqList]
    | cons y bs' => simp [pyEqList, pyEq_vStr_right, ih h]

theorem goodKey_pyEq_left {kind : CollKind} {k : Value} (h : goodKey kind k = true)
    {b : Value} : pyEq k b = true ↔ b = k := by
  cases kind with
  | fields =>
    cases k <;> simp [goodKey] at h
    exact pyEq_vStr_left
  | constructors =>
    cases k <;> simp [goodKey] at h
    rename_i ps
    cases b <;> simp [pyEq]
    rename_i bs
    rw [pyEqList_allVStr_left h]
  | methods =>
    cases k <;> simp [goodKey] at h
    rename_i l
    rcases l with _ | ⟨x, _ | ⟨y, _ | ⟨z, t⟩⟩⟩
    · simp [goodKey] at h
    · simp [goodKey] at h
    · cases x <;> cases y <;> simp [goodKey] at h
      rename_i n ps
      cases b <;> simp [pyEq]
      rename_i bs
      rcases bs with _ | ⟨b1, _ | ⟨b2, _ | ⟨b3, bt⟩⟩⟩ <;> simp [pyEqList]
      cases b2 <;> simp [pyEq, pyEq_vStr_left]
      rename_i bs2
      rw [pyEqList_allVStr_left h]
      exact fun _ => Iff.rfl
    · simp [goodKey] at h

theorem goodKey_pyEq_right {kind : CollKind} {k : Value} (h : goodKey kind k = true)
    {b : Value} : pyEq b k = true ↔ b = k := by
  cases kind with
  | fields =>
    cases k <;> simp [goodKey] at h
    exact pyEq_vStr_right
  | constructors =>
    cases k <;> simp [goodKey] at h
    rename_i ps
    cases b <;> simp [pyEq]
    rename_i bs
    rw [pyEqList_allVStr_right h]
  | methods =>
    cases k <;> simp [goodKey] at h
    rename_i l
    rcases l with _ | ⟨x, _ | ⟨y, _ | ⟨z, t⟩⟩⟩
    · simp [goodKey] at h
    · simp [goodKey] at h
    · cases x <;> cases y <;> simp [goodKey] at h
      rename_i n ps
      cases b <;> simp [pyEq]
      rename_i bs
      rcases bs with _ | ⟨b1, _ | ⟨b2, _ | ⟨b3, bt⟩⟩⟩ <;> simp [pyEqList]
      cases b2 <;> simp [pyEq, pyEq_vStr_right]
      rename_i bs2
      rw [pyEqList_allVStr_right h]
      exact fun _ => Iff.rfl
    · simp [goodKey] at h

theorem slookup_mem {k : String} {kvs : List (String × Value)} {v : Value}
    (h : slookup k kvs = some v) : (k, v) ∈ kvs := by
  induction kvs with
  | nil => simp [slookup] at h
  | cons kv t ih =>
    obtain ⟨k', v'⟩ := kv
    simp only [slookup] at h
    split at h
    · cases h
      rename_i hk
      simp only [beq_iff_eq] at hk
      subst hk
      exact List.mem_cons_self _ _
    · exact List.mem_cons_of_mem _ (ih h)

theorem pyLookup_mem {k : Value} {m : List (Value × Value)} {v : Value}
    (h : pyLookup k m = some v) : ∃ k', (k', v) ∈ m ∧ pyEq k' k = true := by
  induction m with
  | nil => simp [pyLookup] at h
  | cons kv t ih =>
    obtain ⟨k', v'⟩ := kv
    simp only [pyLookup] at h
    split at h
    · cases h
      exact ⟨k', List.mem_cons_self _ _, by assumption⟩
    · obtain ⟨k'', hmem, hk⟩ := ih h
      exact ⟨k'', List.mem_cons_of_mem _ hmem, hk⟩


/-- Modelled from the spec: the literal §6 input shape for one class —
`name` a string, `extends`/`implements` sequences of strings, `fields` a
sequence of mappings with a `name`, `methods` a sequence of mappings with
`name` and `params` a sequence of strings, `constructors` a sequence of
mappings with `params` a sequence of strings; any further attribute is
unconstrained ("extra attributes compare generically"). -/
def classShape6 (v : Value) : Bool :=
  match v with
  | .vDict kvs =>
    (match slookup "name" kvs with
     | some (.vStr _) => true
     | _ => false) &&
    (match slookup "extends" kvs with
     | some (.vList l) => allVStr l
     | _ => false) &&
    (match slookup "implements" kvs with
     | some (.vList l) => allVStr l
     | _ => false) &&
    (match slookup "fields" kvs with
     | some (.vList l) => l.all fieldShape6
     | _ => false) &&
    (match slookup "methods" kvs with
     | some (.vList l) => l.all methodShape6
     | _ => false) &&
    (match slookup "constructors" kvs with
     | some (.vList l) => l.all ctorShape6
     | _ => false)
  | _ => false

/-- Insertion into a `<`-sorted list of strings, mirroring `pyInsertOne`
on string values. -/
def insertStr (x : String) : List String → List String
  | [] => [x]
  | y :: ys => if x < y then x :: y :: ys else y :: insertStr x ys

/-- Insertion sort on strings, mirroring `pySort` on string values. -/
def sortStrs : List String → List String
  | [] => []
  | x :: xs => insertStr x (sortStrs xs)

/-! ## Claim theorems -/

theorem cv_dict (emb : Bool) (rkvs skvs : List (String × Value)) (p : String) :
    compare_values emb (.vDict rkvs) (.vDict skvs) p = (do
      let ds ← compareDictRef emb rkvs skvs p
      Except.ok (ds ++ dictExtras rkvs skvs p)) := by
  rw [compare_values]
  simp [typeName]

theorem cv_list_methods (emb : Bool) (rl sl : List Value) (p : String)
    (h : strEndsWith p ".methods" = true) :
    compare_values emb (.vList rl) (.vList sl) p = compareColl emb .methods rl sl p := by
  rw [compare_values]
  simp [typeName, h]

theorem cv_list_fields (emb : Bool) (rl sl : List Value) (p : String)
    (h1 : strEndsWith p ".methods" = false) (h : strEndsWith p ".fields" = true) :
    compare_values emb (.vList rl) (.vList sl) p = compareColl emb .fields rl sl p := by
  rw [compare_values]
  simp [typeName, h1, h]

theorem cv_list_constructors (emb : Bool) (rl sl : List Value) (p : String)
    (h1 : strEndsWith p ".methods" = false) (h2 : strEndsWith p ".fields" = false)
    (h : strEndsWith p ".constructors" = true) :
    compare_values emb (.vList rl) (.vList sl) p = compareColl emb .constructors rl sl p := by
  rw [compare_values]
  simp [typeName, h1, h2, h]

theorem cv_list_unordered (emb : Bool) (rl sl : List Value) (p : String)
    (h1 : strEndsWith p ".methods" = false) (h2 : strEndsWith p ".fields" = false)
    (h3 : strEndsWith p ".constructors" = false)
    (h : strEndsWith p ".extends" = true ∨ strEndsWith p ".implements" = true) :
    compare_values emb (.vList rl) (.vList sl) p = (do
      let sr ← pySort rl
      let ss ← pySort sl
      Except.ok (if pyEqList sr ss then [] else [contentMismatchMsg p sr ss])) := by
  rw [compare_values]
  rcases h with h | h <;> simp [typeName, h1, h2, h3, h]

theorem cv_list_positional (emb : Bool) (rl sl : List Value) (p : String)
    (h1 : strEndsWith p ".methods" = false) (h2 : strEndsWith p ".fields" = false)
    (h3 : strEndsWith p ".constructors" = false) (h4 : strEndsWith p ".extends" = false)
    (h5 : strEndsWith p ".implements" = false) :
    compare_values emb (.vList rl) (.vList sl) p =
      (if rl.length ≠ sl.length then
        if emb then .ok [lengthMsgEmb p rl sl]
        else do
          let zs ← compareZip emb rl sl p 0
          Except.ok (lengthMsgStandalone p rl sl :: zs)
      else compareZip emb rl sl p 0) := by
  rw [compare_values]
  simp [typeName, h1, h2, h3, h4, h5, bne_iff_ne]

theorem compareColl_ok (emb : Bool) (kind : CollKind) (rl sl : List Value) (p : String)
    {rm sm : List (Value × Value)}
    (hr : buildKeyMap kind rl = .ok rm) (hs : buildKeyMap kind sl = .ok sm) :
    compareColl emb kind rl sl p = (do
      let ds ← compareKeyedRef emb kind rm sm p
      Except.ok (ds ++ keyedExtras kind rm sm p)) := by
  rw [compareColl]
  split
  · rename_i e he
    rw [he] at hr
    cases hr
  · rename_i rm' hr'
    rw [hr'] at hr
    cases hr
    split
    · rename_i e he
      rw [he] at hs
      cases hs
    · rename_i sm' hs'
      rw [hs'] at hs
      cases hs
      rfl

theorem compareColl_err_left (emb : Bool) (kind : CollKind) (rl sl : List Value) (p : String)
    {e : String} (hr : buildKeyMap kind rl = .error e) :
    compareColl emb kind rl sl p = .error e := by
  rw [compareColl]
  split
  · rename_i e' he
    rw [he] at hr
    cases hr
    rfl
  · rename_i rm' hr'
    rw [hr'] at hr
    cases hr

theorem compareColl_err_right (emb : Bool) (kind : CollKind) (rl sl : List Value) (p : String)
    {rm : List (Value × Value)} {e : String}
    (hr : buildKeyMap kind rl = .ok rm) (hs : buildKeyMap kind sl = .error e) :
    compareColl emb kind rl sl p = .error e := by
  rw [compareColl]
  split
  · rename_i e' he
    rw [he] at hr
    cases hr
  · rename_i rm' hr'
    split
    · rename_i e' he
      rw [he] at hs
      cases hs
      rfl
    · rename_i sm' hs'
      rw [hs'] at hs
      cases hs

theorem compareKeyedRef_nil (emb : Bool) (kind : CollKind) (sm : List (Value × Value))
    (p : String) : compareKeyedRef emb kind [] sm p = .ok [] := by
  rw [compareKeyedRef]

theorem compareKeyedRef_cons_missing (emb : Bool) (kind : CollKind) {sig rv : Value}
    {rest sm : List (Value × Value)} (p : String) (hq : pyLookup sig sm = none) :
    compareKeyedRef emb kind ((sig, rv) :: rest) sm p = (do
      let ds ← compareKeyedRef emb kind rest sm p
      Except.ok (missingItemMsg kind p sig :: ds)) := by
  rw [compareKeyedRef]
  split
  · rfl
  · rename_i sv hq'
    rw [hq'] at hq
    cases hq

theorem compareKeyedRef_cons_found (emb : Bool) (kind : CollKind) {sig rv sv : Value}
    {rest sm : List (Value × Value)} (p : String) {mp : String}
    (hq : pyLookup sig sm = some sv) (hp : matchedPath kind p sig = .ok mp) :
    compareKeyedRef emb kind ((sig, rv) :: rest) sm p = (do
      let d ← compare_values emb rv sv mp
      let ds ← compareKeyedRef emb kind rest sm p
      Except.ok (d ++ ds)) := by
  rw [compareKeyedRef]
  split
  · rename_i hq'
    rw [hq'] at hq
    cases hq
  · rename_i sv' hq'
    rw [hq'] at hq
    cases hq
    split
    · rename_i e he
      rw [he] at hp
      cases hp
    · rename_i mp' hp'
      rw [hp'] at hp
      cases hp
      rfl

theorem compareKeyedRef_cons_patherr (emb : Bool) (kind : CollKind) {sig rv sv : Value}
    {rest sm : List (Value × Value)} (p : String) {e : String}
    (hq : pyLookup sig sm = some sv) (hp : matchedPath kind p sig = .error e) :
    compareKeyedRef emb kind ((sig, rv) :: rest) sm p = .error e := by
  rw [compareKeyedRef]
  split
  · rename_i hq'
    rw [hq'] at hq
    cases hq
  · rename_i sv' hq'
    rw [hq'] at hq
    cases hq
    split
    · rename_i e' he
      rw [he] at hp
      cases hp
      rfl
    · rename_i mp' hp'
      rw [hp'] at hp
      cases hp

theorem compareDictRef_nil (emb : Bool) (skvs : List (String × Value)) (p : String) :
    compareDictRef emb [] skvs p = .ok [] := by
  rw [compareDictRef]

theorem compareDictRef_cons_missing (emb : Bool) {k : String} {rv : Value}
    {rest skvs : List (String × Value)} (p : String) (hq : slookup k skvs = none) :
    compareDictRef emb ((k, rv) :: rest) skvs p = (do
      let ds ← compareDictRef emb rest skvs p
      Except.ok ((p ++ "." ++ k ++ " - Missing key") :: ds)) := by
  rw [compareDictRef]
  split
  · rfl
  · rename_i sv hq'
    rw [hq'] at hq
    cases hq

theorem compareDictRef_cons_found (emb : Bool) {k : String} {rv sv : Value}
    {rest skvs : List (String × Value)} (p : String) (hq : slookup k skvs = some sv) :
    compareDictRef emb ((k, rv) :: rest) skvs p = (do
      let d ← compare_values emb rv sv (p ++ "." ++ k)
      let ds ← compareDictRef emb rest skvs p
      Except.ok (d ++ ds)) := by
  rw [compareDictRef]
  split
  · rename_i hq'
    rw [hq'] at hq
    cases hq
  · rename_i sv' hq'
    rw [hq'] at hq
    cases hq
    rfl

theorem compareZip_nil_left (emb : Bool) (sl : List Value) (p : String) (i : Nat) :
    compareZip emb [] sl p i = .ok [] := by
  rw [compareZip]

theorem compareZip_nil_right (emb : Bool) (r : Value) (rt : List Value) (p : String) (i : Nat) :
    compareZip emb (r :: rt) [] p i = .ok [] := by
  rw [compareZip]

theorem compareZip_cons (emb : Bool) (r s : Value) (rt st : List Value) (p : String) (i : Nat) :
    compareZip emb (r :: rt) (s :: st) p i = (do
      let d ← compare_values emb r s (p ++ "[" ++ toString i ++ "]")
      let ds ← compareZip emb rt st p (i + 1)
      Except.ok (d ++ ds)) := by
  rw [compareZip]

theorem cv_type_mismatch (emb : Bool) (a b : Value) (p : String)
    (h : typeName a ≠ typeName b) :
    compare_values emb a b p = .ok [typeMismatchMsg p a b] := by
  rw [compare_values]
  · simp [bne_iff_ne, h]
  · intro rkvs skvs h1 h2
    subst h1; subst h2
    simp [typeName] at h
  · intro rl sl h1 h2
    subst h1; subst h2
    simp [typeName] at h

theorem cv_scalar_eval (emb : Bool) (a b : Value) (p : String)
    (ha : isScalar a = true) (hb : isScalar b = true) :
    compare_values emb a b p =
      if typeName a != typeName b then .ok [typeMismatchMsg p a b]
      else .ok (if pyEq a b = true then [] else [valueMismatchMsg p a b]) := by
  rw [compare_values]
  · intro rkvs skvs h1 h2
    subst h1
    simp [isScalar] at ha
  · intro rl sl h1 h2
    subst h1
    simp [isScalar] at ha

theorem pyEq_scalar_iff {a b : Value} (ha : isScalar a = true) (hb : isScalar b = true)
    (hty : typeName a = typeName b) : pyEq a b = true ↔ a = b := by
  cases a <;> cases b <;> simp_all [typeName, isScalar, pyEq]



/-- C1, counterexample: the positional sequences `[1]` and `[2, 3]` have
differing lengths, yet the standalone `compare_values` emits TWO
discrepancies — the length mismatch and an element-wise `Value mismatch`
from the recursion over the zipped prefix — refuting "exactly one
discrepancy … no further element-wise recursion". -/
theorem C1_counterexample :
    compare_values false (.vList [.vInt 1]) (.vList [.vInt 2, .vInt 3]) "x" =
      .ok ["x - Length mismatch: expected [1] (1 items), got [2, 3] (2 items)",
           "x[0] - Value mismatch: expected 1, got 2"] := by
  simp +decide [compare_values, compareZip, typeName, strEndsWith, lengthMsgStandalone,
    valueMismatchMsg, pyStr, pyRepr, pyReprList, pyEq]
  rfl

/-- C1, amended: at a positional path, two sequences of differing lengths
make the standalone differ (`grade_uml_structure.py`) emit the
`Length mismatch` discrepancy and then CONTINUE element-wise over the
zipped common prefix, while the embedded differ (`main.py`) emits exactly
that one discrepancy and performs no further recursion.  The claim as
stated holds only for the embedded copy. -/
theorem C1_theorem (rl sl : List Value) (p : String)
    (h1 : strEndsWith p ".methods" = false) (h2 : strEndsWith p ".fields" = false)
    (h3 : strEndsWith p ".constructors" = false) (h4 : strEndsWith p ".extends" = false)
    (h5 : strEndsWith p ".implements" = false) (hlen : rl.length ≠ sl.length) :
    compare_values false (.vList rl) (.vList sl) p =
      (compareZip false rl sl p 0).map (fun zs => lengthMsgStandalone p rl sl :: zs) ∧
    compare_values true (.vList rl) (.vList sl) p = .ok [lengthMsgEmb p rl sl] := by
  constructor
  · rw [compare_values]
    simp only [typeName, h1, h2, h3, h4, h5, bne_self_eq_false, Bool.false_eq_true, if_false,
      Bool.or_self, bne_iff_ne, ne_eq, hlen, not_false_eq_true, if_true, Bool.false_eq_true]
    cases hz : compareZip false rl sl p 0 <;> simp [Except.map, hz, Bind.bind, Except.bind]
  · rw [compare_values]
    simp only [typeName, h1, h2, h3, h4, h5, bne_self_eq_false, Bool.false_eq_true, if_false,
      Bool.or_self, bne_iff_ne, ne_eq, hlen, not_false_eq_true, if_true]

/-- C1, witness for the amended theorem at the concrete counterexample
input. -/
theorem C1_witness :
    compare_values false (.vList [.vInt 1]) (.vList [.vInt 2, .vInt 3]) "x" =
      (compareZip false [.vInt 1] [.vInt 2, .vInt 3] "x" 0).map
        (fun zs => lengthMsgStandalone "x" [.vInt 1] [.vInt 2, .vInt 3] :: zs) ∧
    compare_values true (.vList [.vInt 1]) (.vList [.vInt 2, .vInt 3]) "x" =
      .ok [lengthMsgEmb "x" [.vInt 1] [.vInt 2, .vInt 3]] :=
  C1_theorem [.vInt 1] [.vInt 2, .vInt 3] "x" (by decide) (by decide) (by decide)
    (by decide) (by decide) (by decide)

/-- C7, counterexample: `True` and `1` are equal under Python value
equality, yet `compare_values` emits one discrepancy for them — and it is
a `Type mismatch`, not the claimed `Value mismatch` form.  The scalar
claim's "no discrepancy iff equal under value equality; otherwise …
Value mismatch" fails on scalars of differing runtime type. -/
theorem C7_counterexample :
    pyEq (.vBool true) (.vInt 1) = true ∧
    compare_values false (.vBool true) (.vInt 1) "p" =
      .ok ["p - Type mismatch: expected bool, got int"] := by
  constructor
  · simp [pyEq]
  · simp +decide [compare_values, typeName, typeMismatchMsg]

/-- C7, amended: for scalars of the same runtime type, `compare_values`
emits nothing iff the two are equal (and on same-type scalars Python value
equality coincides with structural equality), else exactly one
`Value mismatch` discrepancy; scalars of differing runtime type yield
exactly one `Type mismatch` discrepancy instead. -/
theorem C7_theorem (emb : Bool) (a b : Value) (p : String)
    (ha : isScalar a = true) (hb : isScalar b = true) :
    (typeName a ≠ typeName b →
      compare_values emb a b p = .ok [typeMismatchMsg p a b]) ∧
    (typeName a = typeName b →
      (pyEq a b = true ↔ a = b) ∧
      (a = b → compare_values emb a b p = .ok []) ∧
      (a ≠ b → compare_values emb a b p = .ok [valueMismatchMsg p a b])) := by
  refine ⟨fun h => cv_type_mismatch emb a b p h, fun h => ⟨pyEq_scalar_iff ha hb h, ?_, ?_⟩⟩
  · intro he
    subst he
    rw [cv_scalar_eval emb a a p ha hb]
    simp [(pyEq_scalar_iff ha ha rfl).2 rfl]
  · intro hne
    rw [cv_scalar_eval emb a b p ha hb]
    have hpy : ¬pyEq a b = true := fun hc => hne ((pyEq_scalar_iff ha hb h).1 hc)
    simp [h, hpy]

/-- C8: a keyed-collection entry lacking the attribute its key is built
from gets a defaulted key — empty-string name, empty parameter tuple —
and the comparison then surfaces it as an ordinary key mismatch
(`Missing`/`Extra` item) on whichever side it sits, returning normally
instead of aborting. -/
theorem C8_theorem (attrs : List (String × Value)) (p : String)
    (hname : slookup "name" attrs = none) (hparams : slookup "params" attrs = none) :
    collKeyFn .fields (.vDict attrs) = .ok (.vStr "") ∧
    collKeyFn .methods (.vDict attrs) = .ok (.vList [.vStr "", .vList []]) ∧
    collKeyFn .constructors (.vDict attrs) = .ok (.vList []) ∧
    compare_fields false [.vDict attrs] [] p =
      .ok [missingItemMsg .fields p (.vStr "")] ∧
    compare_methods false [.vDict attrs] [] p =
      .ok [missingItemMsg .methods p (.vList [.vStr "", .vList []])] ∧
    compare_constructors false [.vDict attrs] [] p =
      .ok [missingItemMsg .constructors p (.vList [])] ∧
    compare_fields false [] [.vDict attrs] p =
      .ok [extraItemMsg .fields p (.vStr "")] ∧
    compare_methods false [] [.vDict attrs] p =
      .ok [extraItemMsg .methods p (.vList [.vStr "", .vList []])] ∧
    compare_constructors false [] [.vDict attrs] p =
      .ok [extraItemMsg .constructors p (.vList [])] := by
  have hkf : collKeyFn .fields (.vDict attrs) = .ok (.vStr "") := by
    simp [collKeyFn, hname, ensureHashable, Bind.bind, Except.bind]
  have hkm : collKeyFn .methods (.vDict attrs) = .ok (.vList [.vStr "", .vList []]) := by
    simp [collKeyFn, hname, hparams, ensureHashable, pyTuple, hashableAll,
      Bind.bind, Except.bind]
  have hkc : collKeyFn .constructors (.vDict attrs) = .ok (.vList []) := by
    simp [collKeyFn, hparams, pyTuple, hashableAll, Bind.bind, Except.bind]
  have hb0 : ∀ kind, buildKeyMap kind [] = .ok [] := fun kind => by
    simp [buildKeyMap, keyPairs, corpBuild]
  have hbf : buildKeyMap .fields [.vDict attrs] = .ok [(.vStr "", .vDict attrs)] := by
    simp [buildKeyMap, keyPairs, hkf, corpBuild, setLastPy]
  have hbm : buildKeyMap .methods [.vDict attrs] =
      .ok [(.vList [.vStr "", .vList []], .vDict attrs)] := by
    simp [buildKeyMap, keyPairs, hkm, corpBuild, setLastPy]
  have hbc : buildKeyMap .constructors [.vDict attrs] = .ok [(.vList [], .vDict attrs)] := by
    simp [buildKeyMap, keyPairs, hkc, corpBuild, setLastPy]
  refine ⟨hkf, hkm, hkc, ?_, ?_, ?_, ?_, ?_, ?_⟩
  · rw [compare_fields, compareColl_ok false .fields _ _ p hbf (hb0 _),
      compareKeyedRef_cons_missing false .fields p (by simp [pyLookup]),
      compareKeyedRef_nil]
    simp [keyedExtras, Bind.bind, Except.bind]
  · rw [compare_methods, compareColl_ok false .methods _ _ p hbm (hb0 _),
      compareKeyedRef_cons_missing false .methods p (by simp [pyLookup]),
      compareKeyedRef_nil]
    simp [keyedExtras, Bind.bind, Except.bind]
  · rw [compare_constructors, compareColl_ok false .constructors _ _ p hbc (hb0 _),
      compareKeyedRef_cons_missing false .constructors p (by simp [pyLookup]),
      compareKeyedRef_nil]
    simp [keyedExtras, Bind.bind, Except.bind]
  · rw [compare_fields, compareColl_ok false .fields _ _ p (hb0 _) hbf, compareKeyedRef_nil]
    simp [keyedExtras, pyLookup, Bind.bind, Except.bind]
  · rw [compare_methods, compareColl_ok false .methods _ _ p (hb0 _) hbm, compareKeyedRef_nil]
    simp [keyedExtras, pyLookup, Bind.bind, Except.bind]
  · rw [compare_constructors, compareColl_ok false .constructors _ _ p (hb0 _) hbc,
      compareKeyedRef_nil]
    simp [keyedExtras, pyLookup, Bind.bind, Except.bind]

/-- C8, witness at a concrete nameless, parameterless entry. -/
theorem C8_witness :
    collKeyFn .fields (.vDict [("type", .vStr "int")]) = .ok (.vStr "") ∧
    collKeyFn .methods (.vDict [("type", .vStr "int")]) = .ok (.vList [.vStr "", .vList []]) ∧
    collKeyFn .constructors (.vDict [("type", .vStr "int")]) = .ok (.vList []) ∧
    compare_fields false [.vDict [("type", .vStr "int")]] [] "P" =
      .ok [missingItemMsg .fields "P" (.vStr "")] ∧
    compare_methods false [.vDict [("type", .vStr "int")]] [] "P" =
      .ok [missingItemMsg .methods "P" (.vList [.vStr "", .vList []])] ∧
    compare_constructors false [.vDict [("type", .vStr "int")]] [] "P" =
      .ok [missingItemMsg .constructors "P" (.vList [])] ∧
    compare_fields false [] [.vDict [("type", .vStr "int")]] "P" =
      .ok [extraItemMsg .fields "P" (.vStr "")] ∧
    compare_methods false [] [.vDict [("type", .vStr "int")]] "P" =
      .ok [extraItemMsg .methods "P" (.vList [.vStr "", .vList []])] ∧
    compare_constructors false [] [.vDict [("type", .vStr "int")]] "P" =
      .ok [extraItemMsg .constructors "P" (.vList [])] :=
  C8_theorem [("type", .vStr "int")] "P" (by simp [slookup]) (by simp [slookup])

/-- C7, witness for the amended theorem at concrete scalars `"int"` vs
`"long"`. -/
theorem C7_witness :
    (typeName (Value.vStr "int") ≠ typeName (.vStr "long") →
      compare_values false (.vStr "int") (.vStr "long") "q" =
        .ok [typeMismatchMsg "q" (.vStr "int") (.vStr "long")]) ∧
    (typeName (Value.vStr "int") = typeName (.vStr "long") →
      (pyEq (.vStr "int") (.vStr "long") = true ↔ Value.vStr "int" = .vStr "long") ∧
      (Value.vStr "int" = .vStr "long" →
        compare_values false (.vStr "int") (.vStr "long") "q" = .ok []) ∧
      (Value.vStr "int" ≠ .vStr "long" →
        compare_values false (.vStr "int") (.vStr "long") "q" =
          .ok [valueMismatchMsg "q" (.vStr "int") (.vStr "long")])) :=
  C7_theorem false (.vStr "int") (.vStr "long") "q" (by decide) (by decide)


/-- `pyInsertOne` on string values computes `insertStr`. -/
theorem pyInsertOne_map (x : String) (ys : List String) :
    pyInsertOne (.vStr x) (ys.map .vStr) = .ok ((insertStr x ys).map .vStr) := by
  induction ys with
  | nil => simp [pyInsertOne, insertStr]
  | cons y t ih =>
    by_cases h : x < y <;>
      simp [pyInsertOne, pyLt, insertStr, h, ih, Bind.bind, Except.bind]

/-- `pySort` on string values computes `sortStrs`. -/
theorem pySort_map (xs : List String) :
    pySort (xs.map .vStr) = .ok ((sortStrs xs).map .vStr) := by
  induction xs with
  | nil => simp [pySort, sortStrs]
  | cons x t ih => simp [pySort, sortStrs, ih, pyInsertOne_map, Bind.bind, Except.bind]

theorem insertStr_perm (x : String) (l : List String) : (insertStr x l).Perm (x :: l) := by
  induction l with
  | nil => simp [insertStr]
  | cons y ys ih =>
    by_cases h : x < y
    · simp [insertStr, h]
    · simp only [insertStr, h, if_false]
      exact (ih.cons y).trans (List.Perm.swap x y ys)

theorem sortStrs_perm (l : List String) : (sortStrs l).Perm l := by
  induction l with
  | nil => simp [sortStrs]
  | cons x t ih => exact (insertStr_perm x (sortStrs t)).trans (ih.cons x)

theorem insertStr_sorted {l : List String} (x : String) (h : l.Sorted (· ≤ ·)) :
    (insertStr x l).Sorted (· ≤ ·) := by
  induction l with
  | nil => simp [insertStr]
  | cons y ys ih =>
    rw [List.sorted_cons] at h
    by_cases hx : x < y
    · rw [insertStr, if_pos hx, List.sorted_cons]
      refine ⟨?_, by rw [List.sorted_cons]; exact h⟩
      intro b hb
      rcases List.mem_cons.1 hb with rfl | hb
      · exact le_of_lt hx
      · exact (le_of_lt hx).trans (h.1 b hb)
    · rw [insertStr, if_neg hx, List.sorted_cons]
      refine ⟨?_, ih h.2⟩
      intro b hb
      have := (insertStr_perm x ys).mem_iff.1 hb
      rcases List.mem_cons.1 this with rfl | hb'
      · exact le_of_not_lt hx
      · exact h.1 b hb'

theorem sortStrs_sorted (l : List String) : (sortStrs l).Sorted (· ≤ ·) := by
  induction l with
  | nil => simp [sortStrs]
  | cons x t ih => exact insertStr_sorted x ih

theorem sortStrs_eq_iff_perm {a b : List String} : sortStrs a = sortStrs b ↔ a.Perm b := by
  constructor
  · intro h
    exact (sortStrs_perm a).symm.trans (h ▸ sortStrs_perm b)
  · intro h
    exact List.eq_of_perm_of_sorted
      ((sortStrs_perm a).trans (h.trans (sortStrs_perm b).symm))
      (sortStrs_sorted a) (sortStrs_sorted b)

theorem allVStr_map (xs : List String) : allVStr (xs.map .vStr) = true := by
  induction xs with
  | nil => simp [allVStr]
  | cons x t ih => simp [allVStr, ih]

theorem pyEqList_map_str {xs ys : List String} :
    pyEqList (xs.map .vStr) (ys.map .vStr) = true ↔ xs = ys := by
  rw [pyEqList_allVStr_left (allVStr_map xs)]
  constructor
  · intro h
    exact List.map_injective_iff.2 (fun a b => Value.vStr.injEq a b ▸ id) h.symm
  · intro h
    rw [h]

/-- C5, counterexample: at an `.extends` path the two sides `[None, None]`
are equal as multisets, so the claim demands no discrepancy — but the
differ raises `TypeError` (sorting two `None`s compares them), refuting
totality of the unordered-set branch on arbitrary scalars. -/
theorem C5_counterexample :
    compare_values false (.vList [.vNull, .vNull]) (.vList [.vNull, .vNull]) "x.extends" =
      .error "TypeError" := by
  simp +decide [compare_values, pySort, pyInsertOne, pyLt, strEndsWith, typeName,
    Bind.bind, Except.bind]

/-- C5, amended: for two sequences of STRINGS compared at a path ending in
`.extends` or `.implements`, no discrepancy is emitted iff the sequences
are equal as multisets; otherwise exactly one discrepancy naming both
sorted sequences, with no recursion into elements.  On other scalars (e.g.
`None`s, or mixed kinds) the sort can raise instead. -/
theorem C5_theorem (emb : Bool) (rs ss : List String) (p : String)
    (h : strEndsWith p ".extends" = true ∨ strEndsWith p ".implements" = true) :
    compare_values emb (.vList (rs.map .vStr)) (.vList (ss.map .vStr)) p =
      .ok (if Multiset.ofList rs = Multiset.ofList ss then []
           else [contentMismatchMsg p ((sortStrs rs).map .vStr) ((sortStrs ss).map .vStr)]) := by
  have h1 : strEndsWith p ".methods" = false := by
    rcases h with h | h
    · exact Bool.eq_false_iff.2 fun hc => strEndsWith_disjoint (by decide) (by decide) h hc
    · exact Bool.eq_false_iff.2 fun hc => strEndsWith_disjoint (by decide) (by decide) hc h
  have h2 : strEndsWith p ".fields" = false := by
    rcases h with h | h <;>
      exact Bool.eq_false_iff.2 fun hc => strEndsWith_disjoint (by decide) (by decide) hc h
  have h3 : strEndsWith p ".constructors" = false := by
    rcases h with h | h <;>
      exact Bool.eq_false_iff.2 fun hc => strEndsWith_disjoint (by decide) (by decide) h hc
  rw [cv_list_unordered emb _ _ p h1 h2 h3 h, pySort_map, pySort_map]
  simp only [Bind.bind, Except.bind]
  by_cases hm : Multiset.ofList rs = Multiset.ofList ss
  · have : sortStrs rs = sortStrs ss := sortStrs_eq_iff_perm.2 (Multiset.coe_eq_coe.1 hm)
    simp [hm, this, pyEqList_map_str]
  · have hs : sortStrs rs ≠ sortStrs ss := fun hc =>
      hm (Multiset.coe_eq_coe.2 (sortStrs_eq_iff_perm.1 hc))
    simp only [hm, if_false]
    rw [if_neg]
    intro hc
    exact hs (pyEqList_map_str.1 hc)

/-- C5, witness: the spec example `["A","B"]` vs `["B","A"]` at an
`.extends` path — equal as multisets, no discrepancy. -/
theorem C5_witness :
    compare_values false (.vList (["A", "B"].map .vStr)) (.vList (["B", "A"].map .vStr))
        "x.extends" =
      .ok (if Multiset.ofList ["A", "B"] = Multiset.ofList ["B", "A"] then []
           else [contentMismatchMsg "x.extends" ((sortStrs ["A", "B"]).map .vStr)
                  ((sortStrs ["B", "A"]).map .vStr)]) :=
  C5_theorem false ["A", "B"] ["B", "A"] "x.extends" (Or.inl (by decide))

theorem classLoopRef_nil (emb : Bool) (sm : List (Value × Value)) :
    classLoopRef emb [] sm = .ok [] := by
  rw [classLoopRef]

theorem classLoopRef_cons_missing (emb : Bool) {n rv : Value}
    {rest sm : List (Value × Value)} (hq : pyLookup n sm = none) :
    classLoopRef emb ((n, rv) :: rest) sm = (do
      let ds ← classLoopRef emb rest sm
      Except.ok (("Missing class: " ++ pyStr n) :: ds)) := by
  rw [classLoopRef, hq]

theorem classLoopRef_cons_found (emb : Bool) {n rv sv : Value}
    {rest sm : List (Value × Value)} (hq : pyLookup n sm = some sv) :
    classLoopRef emb ((n, rv) :: rest) sm = (do
      let d ← compare_values emb rv sv ("Class " ++ pyStr n)
      let ds ← classLoopRef emb rest sm
      Except.ok (d ++ ds)) := by
  rw [classLoopRef, hq]

/-- C10: `compare_uml_files` accepts the CANDIDATE corpus as a sequence of
class structures too: the sequence is normalized (by the same `toCorpus`
normalization the reference side goes through, entries lacking a `name`
dropped) and the comparison result is identical to passing the resulting
name-keyed mapping directly. -/
theorem C10_theorem (emb : Bool) (rd : Value) (items : List Value)
    (skvs : List (String × Value))
    (hnorm : normalizeCorpus items = .ok (skvs.map fun kv => (Value.vStr kv.1, kv.2))) :
    compare_uml_files emb rd (.vList items) = compare_uml_files emb rd (.vDict skvs) ∧
    toCorpus (.vList items) = toCorpus (.vDict skvs) := by
  have ht : toCorpus (.vList items) = toCorpus (.vDict skvs) := by
    rw [toCorpus, toCorpus, hnorm]
  refine ⟨?_, ht⟩
  rw [compare_uml_files, compare_uml_files, ht]

/-- C10, witness: a two-entry candidate sequence, one named class kept and
one nameless entry dropped. -/
theorem C10_witness :
    compare_uml_files false (.vDict [])
        (.vList [.vDict [("name", .vStr "A")], .vDict [("x", .vInt 1)]]) =
      compare_uml_files false (.vDict []) (.vDict [("A", .vDict [("name", .vStr "A")])]) ∧
    toCorpus (.vList [.vDict [("name", .vStr "A")], .vDict [("x", .vInt 1)]]) =
      toCorpus (.vDict [("A", .vDict [("name", .vStr "A")])]) :=
  C10_theorem false (.vDict []) [.vDict [("name", .vStr "A")], .vDict [("x", .vInt 1)]]
    [("A", .vDict [("name", .vStr "A")])]
    (by simp [normalizeCorpus, corpusPairs, hasNameAttr, getNameAttr, slookup,
      ensureHashable, corpBuild, setLastPy])

theorem except_bind_ok {α β : Type} {x : Except String α} {f : α → Except String β} {b : β}
    (h : (x >>= f) = .ok b) : ∃ a, x = .ok a ∧ f a = .ok b := by
  cases x with
  | error e => simp [Bind.bind, Except.bind] at h
  | ok a => exact ⟨a, rfl, by simpa [Bind.bind, Except.bind] using h⟩

theorem pyLookup_mapped (n : String) (skvs : List (String × Value)) :
    pyLookup (.vStr n) (skvs.map fun kv => (Value.vStr kv.1, kv.2)) = slookup n skvs := by
  induction skvs with
  | nil => simp [pyLookup, slookup]
  | cons kv t ih =>
    obtain ⟨k, v⟩ := kv
    simp only [List.map_cons, pyLookup, slookup, pyEq, ih]

theorem classLoopRef_mem_missing {emb : Bool} {rm sm : List (Value × Value)} {n rv : Value}
    {ds : List String} (hmem : (n, rv) ∈ rm) (hrun : classLoopRef emb rm sm = .ok ds)
    (hq : pyLookup n sm = none) : ("Missing class: " ++ pyStr n) ∈ ds := by
  induction rm generalizing ds with
  | nil => simp at hmem
  | cons hd rest ih =>
    obtain ⟨n0, rv0⟩ := hd
    rcases List.mem_cons.1 hmem with heq | hmem'
    · injection heq with h1 h2
      subst h1
      rw [classLoopRef_cons_missing emb hq] at hrun
      obtain ⟨ds', hds', hok⟩ := except_bind_ok hrun
      simp only [Except.ok.injEq] at hok
      rw [← hok]
      exact List.mem_cons_self _ _
    · cases hq0 : pyLookup n0 sm with
      | none =>
        rw [classLoopRef_cons_missing emb hq0] at hrun
        obtain ⟨ds', hds', hok⟩ := except_bind_ok hrun
        simp only [Except.ok.injEq] at hok
        rw [← hok]
        exact List.mem_cons_of_mem _ (ih hmem' hds')
      | some sv0 =>
        rw [classLoopRef_cons_found emb hq0] at hrun
        obtain ⟨d, hd, hrest⟩ := except_bind_ok hrun
        obtain ⟨ds', hds', hok⟩ := except_bind_ok hrest
        simp only [Except.ok.injEq] at hok
        rw [← hok]
        exact List.mem_append_right _ (ih hmem' hds')

theorem classLoopRef_mem_found {emb : Bool} {rm sm : List (Value × Value)} {n rv sv : Value}
    {ds : List String} (hmem : (n, rv) ∈ rm) (hrun : classLoopRef emb rm sm = .ok ds)
    (hq : pyLookup n sm = some sv) :
    ∃ block, compare_values emb rv sv ("Class " ++ pyStr n) = .ok block ∧ block <:+: ds := by
  induction rm generalizing ds with
  | nil => simp at hmem
  | cons hd rest ih =>
    obtain ⟨n0, rv0⟩ := hd
    rcases List.mem_cons.1 hmem with heq | hmem'
    · injection heq with h1 h2
      subst h1
      subst h2
      rw [classLoopRef_cons_found emb hq] at hrun
      obtain ⟨d, hd', hrest⟩ := except_bind_ok hrun
      obtain ⟨ds', hds', hok⟩ := except_bind_ok hrest
      simp only [Except.ok.injEq] at hok
      rw [← hok]
      exact ⟨d, hd', (List.prefix_append d ds').isInfix⟩
    · cases hq0 : pyLookup n0 sm with
      | none =>
        rw [classLoopRef_cons_missing emb hq0] at hrun
        obtain ⟨ds', hds', hok⟩ := except_bind_ok hrun
        simp only [Except.ok.injEq] at hok
        rw [← hok]
        obtain ⟨block, hb, hinf⟩ := ih hmem' hds'
        exact ⟨block, hb, hinf.trans (List.suffix_cons _ _).isInfix⟩
      | some sv0 =>
        rw [classLoopRef_cons_found emb hq0] at hrun
        obtain ⟨d, hd', hrest⟩ := except_bind_ok hrun
        obtain ⟨ds', hds', hok⟩ := except_bind_ok hrest
        simp only [Except.ok.injEq] at hok
        rw [← hok]
        obtain ⟨block, hb, hinf⟩ := ih hmem' hds'
        exact ⟨block, hb, hinf.trans (List.suffix_append d ds').isInfix⟩

theorem setLastPy_keys_sub {k0 v0 : Value} {acc : List (Value × Value)}
    {kv : Value × Value} (h : kv ∈ setLastPy k0 v0 acc) :
    kv.1 = k0 ∨ ∃ kv' ∈ acc, kv.1 = kv'.1 := by
  induction acc with
  | nil =>
    simp only [setLastPy, List.mem_singleton] at h
    subst h
    exact Or.inl rfl
  | cons hd t ih =>
    obtain ⟨k1, v1⟩ := hd
    simp only [setLastPy] at h
    split at h
    · rcases List.mem_cons.1 h with rfl | hmem
      · exact Or.inr ⟨(k1, v1), List.mem_cons_self _ _, rfl⟩
      · exact Or.inr ⟨kv, List.mem_cons_of_mem _ hmem, rfl⟩
    · rcases List.mem_cons.1 h with rfl | hmem
      · exact Or.inr ⟨(k1, v1), List.mem_cons_self _ _, rfl⟩
      · rcases ih hmem with h1 | ⟨kv', hkv', he⟩
        · exact Or.inl h1
        · exact Or.inr ⟨kv', List.mem_cons_of_mem _ hkv', he⟩

theorem pyLookup_setLastPy_isSome {k0 v0 k : Value} {acc : List (Value × Value)}
    (hs : ∃ s, k0 = Value.vStr s)
    (hacc : ∀ kv ∈ acc, ∃ s, (kv : Value × Value).1 = Value.vStr s) :
    (pyLookup k (setLastPy k0 v0 acc)).isSome = ((pyLookup k acc).isSome || pyEq k0 k) := by
  induction acc with
  | nil =>
    simp only [setLastPy, pyLookup]
    by_cases h : pyEq k0 k = true <;> simp [h]
  | cons hd t ih =>
    obtain ⟨k1, v1⟩ := hd
    obtain ⟨s1, hs1⟩ := hacc (k1, v1) (List.mem_cons_self _ _)
    obtain ⟨s0, hs0⟩ := hs
    simp only at hs1
    subst hs1
    subst hs0
    simp only [setLastPy]
    by_cases h10 : pyEq (Value.vStr s1) (Value.vStr s0) = true
    · have : s1 = s0 := by
        have h2 := pyEq_vStr_left.1 h10
        injection h2 with h3
        exact h3.symm
      subst this
      rw [if_pos h10]
      simp only [pyLookup]
      by_cases h1k : pyEq (Value.vStr s1) k = true <;> simp [h1k]
    · rw [if_neg h10]
      simp only [pyLookup]
      by_cases h1k : pyEq (Value.vStr s1) k = true
      · simp [h1k]
      · simp only [h1k, if_false, Bool.false_eq_true]
        exact ih fun kv hkv => hacc kv (List.mem_cons_of_mem _ hkv)

theorem pyLookup_corpBuild_isSome {ps acc : List (Value × Value)} {k : Value}
    (hps : ∀ kv ∈ ps, ∃ s, (kv : Value × Value).1 = Value.vStr s)
    (hacc : ∀ kv ∈ acc, ∃ s, (kv : Value × Value).1 = Value.vStr s) :
    (pyLookup k (corpBuild acc ps)).isSome =
      ((pyLookup k acc).isSome || (pyLookup k ps).isSome) := by
  induction ps generalizing acc with
  | nil => simp [corpBuild, pyLookup]
  | cons hd t ih =>
    obtain ⟨k0, v0⟩ := hd
    have hk0 := hps (k0, v0) (List.mem_cons_self _ _)
    simp only [corpBuild]
    have hacc' : ∀ kv ∈ setLastPy k0 v0 acc, ∃ s, (kv : Value × Value).1 = Value.vStr s := by
      intro kv hkv
      rcases setLastPy_keys_sub hkv with h1 | ⟨kv', hkv', he⟩
      · rw [h1]
        exact hk0
      · rw [he]
        exact hacc kv' hkv'
    rw [ih (fun kv hkv => hps kv (List.mem_cons_of_mem _ hkv)) hacc',
      pyLookup_setLastPy_isSome hk0 hacc]
    simp only [pyLookup]
    by_cases hk : pyEq k0 k = true <;> simp [hk, Bool.or_comm, Bool.or_assoc, Bool.or_left_comm]

theorem corpusPairs_key_char {items : List Value} {ps : List (Value × Value)} {n : String}
    (hitems : ∀ it ∈ items, ∃ kvs, it = Value.vDict kvs ∧
      ∀ nv, slookup "name" kvs = some nv → ∃ s, nv = Value.vStr s)
    (hps : corpusPairs items = .ok ps) :
    ((pyLookup (.vStr n) ps).isSome = true ↔
      ∃ kvs, Value.vDict kvs ∈ items ∧ slookup "name" kvs = some (.vStr n)) ∧
    (∀ kv ∈ ps, ∃ s, (kv : Value × Value).1 = Value.vStr s) := by
  induction items generalizing ps with
  | nil =>
    simp only [corpusPairs] at hps
    cases hps
    simp [pyLookup]
  | cons it t ih =>
    obtain ⟨kvs, rfl, hname⟩ := hitems it (List.mem_cons_self _ _)
    have hit : ∀ x ∈ t, ∃ kvs, x = Value.vDict kvs ∧
        ∀ nv, slookup "name" kvs = some nv → ∃ s, nv = Value.vStr s :=
      fun x hx => hitems x (List.mem_cons_of_mem _ hx)
    simp only [corpusPairs, hasNameAttr] at hps
    cases hnv : slookup "name" kvs with
    | none =>
      rw [hnv] at hps
      simp only [Option.isSome_none] at hps
      obtain ⟨h1, h2⟩ := ih hit hps
      constructor
      · rw [h1]
        constructor
        · rintro ⟨kvs', hm, hn⟩
          exact ⟨kvs', List.mem_cons_of_mem _ hm, hn⟩
        · rintro ⟨kvs', hm, hn⟩
          rcases List.mem_cons.1 hm with he | hm'
          · injection he with he'
            rw [he'] at hn
            rw [hn] at hnv
            cases hnv
          · exact ⟨kvs', hm', hn⟩
      · exact h2
    | some nv =>
      obtain ⟨s, rfl⟩ := hname nv hnv
      rw [hnv] at hps
      simp only [Option.isSome_some, getNameAttr, hnv, ensureHashable] at hps
      cases hrest : corpusPairs t with
      | error e => rw [hrest] at hps; cases hps
      | ok ps' =>
        rw [hrest] at hps
        cases hps
        obtain ⟨h1, h2⟩ := ih hit hrest
        constructor
        · simp only [pyLookup, pyEq]
          by_cases hsn : s = n
          · subst hsn
            simp only [beq_self_eq_true, if_true, Option.isSome_some, true_iff]
            exact ⟨kvs, List.mem_cons_self _ _, hnv⟩
          · have : (s == n) = false := beq_eq_false_iff_ne.2 hsn
            rw [this]
            simp only [Bool.false_eq_true, if_false]
            rw [h1]
            constructor
            · rintro ⟨kvs', hm, hn⟩
              exact ⟨kvs', List.mem_cons_of_mem _ hm, hn⟩
            · rintro ⟨kvs', hm, hn⟩
              rcases List.mem_cons.1 hm with he | hm'
              · injection he with he'
                rw [he'] at hn
                rw [hn] at hnv
                injection hnv with hnv'
                injection hnv' with hnv''
                exact absurd hnv''.symm hsn
              · exact ⟨kvs', hm', hn⟩
        · intro kv hkv
          rcases List.mem_cons.1 hkv with rfl | hm
          · exact ⟨s, rfl⟩
          · exact h2 kv hm

/-- C6: with a sequence-shaped reference corpus (entries are mappings,
names are strings), `compare_uml_files` normalizes it into name-keyed
form dropping entries that lack a `name` (conjunct 1: the normalized
corpus has exactly the carried names), emits `"Missing class: <name>"`
for every reference-only name (conjunct 2), `"Extra class: <name>"` for
every candidate-only name (conjunct 3), and for names on both sides the
per-class comparison result appears contiguously in the output
(conjunct 4). -/
theorem C6_theorem (emb : Bool) (items : List Value) (skvs : List (String × Value))
    (rm : List (Value × Value)) (ds : List String)
    (hitems : ∀ it ∈ items, ∃ kvs, it = Value.vDict kvs ∧
      ∀ nv, slookup "name" kvs = some nv → ∃ s, nv = Value.vStr s)
    (hnorm : normalizeCorpus items = .ok rm)
    (hrun : compare_uml_files emb (.vList items) (.vDict skvs) = .ok ds) :
    (∀ n : String, (pyLookup (.vStr n) rm).isSome = true ↔
      ∃ kvs, Value.vDict kvs ∈ items ∧ slookup "name" kvs = some (.vStr n)) ∧
    (∀ (n : String) (rv : Value), pyLookup (.vStr n) rm = some rv → slookup n skvs = none →
      ("Missing class: " ++ n) ∈ ds) ∧
    (∀ (n : String) (sv : Value), slookup n skvs = some sv → pyLookup (.vStr n) rm = none →
      ("Extra class: " ++ n) ∈ ds) ∧
    (∀ (n : String) (rv sv : Value), pyLookup (.vStr n) rm = some rv →
      slookup n skvs = some sv →
      ∃ block, compare_values emb rv sv ("Class " ++ n) = .ok block ∧ block <:+: ds) := by
  rw [compare_uml_files] at hrun
  rw [show toCorpus (Value.vList items) = normalizeCorpus items from rfl, hnorm] at hrun
  rw [show toCorpus (Value.vDict skvs) =
    .ok (skvs.map fun kv => (Value.vStr kv.1, kv.2)) from rfl] at hrun
  simp only [Bind.bind, Except.bind] at hrun
  obtain ⟨main, hmain, hok⟩ := @except_bind_ok _ _ (classLoopRef emb rm
    (skvs.map fun kv => (Value.vStr kv.1, kv.2))) _ _ (by
      simpa [Bind.bind, Except.bind] using hrun)
  simp only [Except.ok.injEq] at hok
  have hcp : ∃ ps, corpusPairs items = .ok ps ∧ rm = corpBuild [] ps := by
    rw [normalizeCorpus] at hnorm
    cases hc : corpusPairs items with
    | error e => rw [hc] at hnorm; cases hnorm
    | ok ps =>
      rw [hc] at hnorm
      cases hnorm
      exact ⟨ps, rfl, rfl⟩
  obtain ⟨ps, hc, hrm⟩ := hcp
  refine ⟨?_, ?_, ?_, ?_⟩
  · intro n
    obtain ⟨hchar, hkeys⟩ := @corpusPairs_key_char items ps n hitems hc
    rw [hrm, pyLookup_corpBuild_isSome hkeys (by intro kv hkv; simp at hkv)]
    simp only [pyLookup, Option.isSome_none, Bool.false_or]
    exact hchar
  · intro n rv hlk hsl
    obtain ⟨k', hmem, hk'⟩ := pyLookup_mem hlk
    rw [pyEq_vStr_right.1 hk'] at hmem
    have hq : pyLookup (.vStr n) (skvs.map fun kv => (Value.vStr kv.1, kv.2)) = none := by
      rw [pyLookup_mapped, hsl]
    have := classLoopRef_mem_missing hmem hmain hq
    rw [← hok]
    exact List.mem_append_left _ (by simpa [pyStr] using this)
  · intro n sv hsl hnone
    rw [← hok]
    refine List.mem_append_right _ ?_
    have hmem : (Value.vStr n, sv) ∈ skvs.map fun kv => (Value.vStr kv.1, kv.2) :=
      List.mem_map.2 ⟨(n, sv), slookup_mem hsl, rfl⟩
    have : ("Extra class: " ++ pyStr (Value.vStr n)) ∈
        corpusExtras rm (skvs.map fun kv => (Value.vStr kv.1, kv.2)) := by
      rw [corpusExtras]
      exact List.mem_map.2 ⟨(Value.vStr n, sv),
        List.mem_filter.2 ⟨hmem, by simp [hnone]⟩, rfl⟩
    simpa [pyStr] using this
  · intro n rv sv hlk hsl
    obtain ⟨k', hmem, hk'⟩ := pyLookup_mem hlk
    rw [pyEq_vStr_right.1 hk'] at hmem
    have hq : pyLookup (.vStr n) (skvs.map fun kv => (Value.vStr kv.1, kv.2)) = some sv := by
      rw [pyLookup_mapped, hsl]
    obtain ⟨block, hb, hinf⟩ := classLoopRef_mem_found hmem hmain hq
    rw [← hok]
    exact ⟨block, by simpa [pyStr] using hb,
      hinf.trans (List.prefix_append main _).isInfix⟩

/-- C6, witness: reference sequence with one named class `A` (plus a
dropped nameless entry) against a candidate mapping with only class `B`:
one `Missing class: A`, one `Extra class: B`. -/
theorem C6_witness :
    (∀ n : String,
      (pyLookup (.vStr n) [(Value.vStr "A", Value.vDict [("name", Value.vStr "A")])]).isSome
          = true ↔
      ∃ kvs, Value.vDict kvs ∈
          [Value.vDict [("name", Value.vStr "A")], Value.vDict [("z", Value.vNull)]] ∧
        slookup "name" kvs = some (.vStr n)) ∧
    (∀ (n : String) (rv : Value),
      pyLookup (.vStr n) [(Value.vStr "A", Value.vDict [("name", Value.vStr "A")])] =
          some rv →
      slookup n [("B", Value.vDict [])] = none → ("Missing class: " ++ n) ∈
        ["Missing class: A", "Extra class: B"]) ∧
    (∀ (n : String) (sv : Value), slookup n [("B", Value.vDict [])] = some sv →
      pyLookup (.vStr n) [(Value.vStr "A", Value.vDict [("name", Value.vStr "A")])] = none →
      ("Extra class: " ++ n) ∈ ["Missing class: A", "Extra class: B"]) ∧
    (∀ (n : String) (rv sv : Value),
      pyLookup (.vStr n) [(Value.vStr "A", Value.vDict [("name", Value.vStr "A")])] =
          some rv →
      slookup n [("B", Value.vDict [])] = some sv →
      ∃ block, compare_values false rv sv ("Class " ++ n) = .ok block ∧
        block <:+: ["Missing class: A", "Extra class: B"]) := by
  refine C6_theorem false
    [Value.vDict [("name", Value.vStr "A")], Value.vDict [("z", Value.vNull)]]
    [("B", Value.vDict [])]
    [(Value.vStr "A", Value.vDict [("name", Value.vStr "A")])]
    ["Missing class: A", "Extra class: B"] ?_ ?_ ?_
  · intro it hit
    rcases List.mem_cons.1 hit with rfl | hit'
    · refine ⟨[("name", Value.vStr "A")], rfl, ?_⟩
      intro nv h
      simp [slookup] at h
      exact ⟨"A", h.symm⟩
    · rcases List.mem_singleton.1 hit' with rfl
      refine ⟨[("z", Value.vNull)], rfl, ?_⟩
      intro nv h
      simp [slookup] at h
  · simp [normalizeCorpus, corpusPairs, hasNameAttr, getNameAttr, slookup, ensureHashable,
      corpBuild, setLastPy]
  · rw [compare_uml_files]
    rw [show toCorpus (Value.vList
      [Value.vDict [("name", Value.vStr "A")], Value.vDict [("z", Value.vNull)]]) =
      .ok [(Value.vStr "A", Value.vDict [("name", Value.vStr "A")])] from by
        simp [toCorpus, normalizeCorpus, corpusPairs, hasNameAttr, getNameAttr, slookup,
          ensureHashable, corpBuild, setLastPy]]
    simp [Bind.bind, Except.bind, toCorpus, classLoopRef, pyLookup, pyEq, pyStr,
      corpusExtras]

theorem lenOk_type_mismatch {r s : Value} (p : String) (h : typeName r ≠ typeName s) :
    lenOk r s p = true := by
  rw [lenOk]
  · simp [bne_iff_ne, h]
  · intro rkvs skvs h1 h2
    subst h1; subst h2
    simp [typeName] at h
  · intro rl sl h1 h2
    subst h1; subst h2
    simp [typeName] at h

theorem lenOk_dict (rkvs skvs : List (String × Value)) (p : String) :
    lenOk (.vDict rkvs) (.vDict skvs) p = lenOkDict rkvs skvs p := by
  rw [lenOk]
  simp [typeName]

theorem lenOk_list_methods (rl sl : List Value) (p : String)
    (h : strEndsWith p ".methods" = true) :
    lenOk (.vList rl) (.vList sl) p = lenOkColl .methods rl sl p := by
  rw [lenOk]
  simp [typeName, h]

theorem lenOk_list_fields (rl sl : List Value) (p : String)
    (h1 : strEndsWith p ".methods" = false) (h : strEndsWith p ".fields" = true) :
    lenOk (.vList rl) (.vList sl) p = lenOkColl .fields rl sl p := by
  rw [lenOk]
  simp [typeName, h1, h]

theorem lenOk_list_constructors (rl sl : List Value) (p : String)
    (h1 : strEndsWith p ".methods" = false) (h2 : strEndsWith p ".fields" = false)
    (h : strEndsWith p ".constructors" = true) :
    lenOk (.vList rl) (.vList sl) p = lenOkColl .constructors rl sl p := by
  rw [lenOk]
  simp [typeName, h1, h2, h]

theorem lenOk_list_positional (rl sl : List Value) (p : String)
    (h1 : strEndsWith p ".methods" = false) (h2 : strEndsWith p ".fields" = false)
    (h3 : strEndsWith p ".constructors" = false) (h4 : strEndsWith p ".extends" = false)
    (h5 : strEndsWith p ".implements" = false) :
    lenOk (.vList rl) (.vList sl) p = (rl.length == sl.length && lenOkZip rl sl p 0) := by
  rw [lenOk]
  simp [typeName, h1, h2, h3, h4, h5]

theorem lenOkColl_ok (kind : CollKind) (rl sl : List Value) (p : String)
    {rm sm : List (Value × Value)}
    (hr : buildKeyMap kind rl = .ok rm) (hs : buildKeyMap kind sl = .ok sm) :
    lenOkColl kind rl sl p = lenOkKeyed kind rm sm p := by
  rw [lenOkColl]
  split
  · rename_i e he
    rw [he] at hr
    cases hr
  · rename_i rm' hr'
    rw [hr'] at hr
    cases hr
    split
    · rename_i e he
      rw [he] at hs
      cases hs
    · rename_i sm' hs'
      rw [hs'] at hs
      cases hs
      rfl

theorem lenOkDict_cons_missing {k : String} {rv : Value}
    {rest skvs : List (String × Value)} (p : String) (hq : slookup k skvs = none) :
    lenOkDict ((k, rv) :: rest) skvs p = lenOkDict rest skvs p := by
  rw [lenOkDict]
  split
  · simp
  · rename_i sv hq'
    rw [hq'] at hq
    cases hq

theorem lenOkDict_cons_found {k : String} {rv sv : Value}
    {rest skvs : List (String × Value)} (p : String) (hq : slookup k skvs = some sv) :
    lenOkDict ((k, rv) :: rest) skvs p =
      (lenOk rv sv (p ++ "." ++ k) && lenOkDict rest skvs p) := by
  rw [lenOkDict]
  split
  · rename_i hq'
    rw [hq'] at hq
    cases hq
  · rename_i sv' hq'
    rw [hq'] at hq
    cases hq
    rfl

theorem lenOkKeyed_cons_missing (kind : CollKind) {sig rv : Value}
    {rest sm : List (Value × Value)} (p : String) (hq : pyLookup sig sm = none) :
    lenOkKeyed kind ((sig, rv) :: rest) sm p = lenOkKeyed kind rest sm p := by
  rw [lenOkKeyed]
  split
  · simp
  · rename_i sv hq'
    rw [hq'] at hq
    cases hq

theorem lenOkKeyed_cons_found (kind : CollKind) {sig rv sv : Value}
    {rest sm : List (Value × Value)} (p : String) {mp : String}
    (hq : pyLookup sig sm = some sv) (hp : matchedPath kind p sig = .ok mp) :
    lenOkKeyed kind ((sig, rv) :: rest) sm p = (lenOk rv sv mp && lenOkKeyed kind rest sm p) := by
  rw [lenOkKeyed]
  split
  · rename_i hq'
    rw [hq'] at hq
    cases hq
  · rename_i sv' hq'
    rw [hq'] at hq
    cases hq
    rw [hp]

theorem lenOkKeyed_cons_patherr (kind : CollKind) {sig rv sv : Value}
    {rest sm : List (Value × Value)} (p : String) {e : String}
    (hq : pyLookup sig sm = some sv) (hp : matchedPath kind p sig = .error e) :
    lenOkKeyed kind ((sig, rv) :: rest) sm p = lenOkKeyed kind rest sm p := by
  rw [lenOkKeyed]
  split
  · rename_i hq'
    rw [hq'] at hq
    cases hq
  · rename_i sv' hq'
    rw [hq'] at hq
    cases hq
    rw [hp]
    simp

theorem lenOkZip_cons (r s : Value) (rt st : List Value) (p : String) (i : Nat) :
    lenOkZip (r :: rt) (s :: st) p i =
      (lenOk r s (p ++ "[" ++ toString i ++ "]") && lenOkZip rt st p (i + 1)) := by
  rw [lenOkZip]

theorem cv_catchall (emb : Bool) (r s : Value) (p : String)
    (hnd : ∀ rkvs skvs, r = Value.vDict rkvs → s = Value.vDict skvs → False)
    (hnl : ∀ rl sl, r = Value.vList rl → s = Value.vList sl → False) :
    compare_values emb r s p =
      if typeName r != typeName s then .ok [typeMismatchMsg p r s]
      else .ok (if pyEq r s = true then [] else [valueMismatchMsg p r s]) := by
  rw [compare_values]
  · exact hnd
  · exact hnl

/-- All positional-length conditions holding (the `lenOk` predicate), the
standalone and the embedded differ compute identical value-level
results — the only branch where their code differs is then never taken. -/
theorem cv_emb_agree : ∀ (r s : Value) (p : String),
    lenOk r s p = true → compare_values false r s p = compare_values true r s p := by
  refine compare_values.induct false
    (fun r s p => lenOk r s p = true →
      compare_values false r s p = compare_values true r s p)
    (fun rl sl p i => lenOkZip rl sl p i = true →
      compareZip false rl sl p i = compareZip true rl sl p i)
    (fun kind rl sl p => lenOkColl kind rl sl p = true →
      compareColl false kind rl sl p = compareColl true kind rl sl p)
    (fun kind rm sm p => lenOkKeyed kind rm sm p = true →
      compareKeyedRef false kind rm sm p = compareKeyedRef true kind rm sm p)
    (fun rkvs skvs p => lenOkDict rkvs skvs p = true →
      compareDictRef false rkvs skvs p = compareDictRef true rkvs skvs p)
    ?_ ?_ ?_ ?_ ?_ ?_ ?_ ?_ ?_ ?_ ?_ ?_ ?_ ?_ ?_ ?_ ?_ ?_ ?_ ?_ ?_ ?_ ?_
  · intro r s p h _
    have h' : typeName r ≠ typeName s := bne_iff_ne.1 h
    rw [cv_type_mismatch false r s p h', cv_type_mismatch true r s p h']
  · intro p rk sk _ ih hlen
    rw [cv_dict, cv_dict, ih (by rwa [lenOk_dict] at hlen)]
  · intro p rl sl hm _ ih hlen
    rw [cv_list_methods false rl sl p hm, cv_list_methods true rl sl p hm]
    exact ih (by rwa [lenOk_list_methods rl sl p hm] at hlen)
  · intro p rl sl hm hf _ ih hlen
    have hm' := Bool.eq_false_iff.2 hm
    rw [cv_list_fields false rl sl p hm' hf, cv_list_fields true rl sl p hm' hf]
    exact ih (by rwa [lenOk_list_fields rl sl p hm' hf] at hlen)
  · intro p rl sl hm hf hc _ ih hlen
    have hm' := Bool.eq_false_iff.2 hm
    have hf' := Bool.eq_false_iff.2 hf
    rw [cv_list_constructors false rl sl p hm' hf' hc,
      cv_list_constructors true rl sl p hm' hf' hc]
    exact ih (by rwa [lenOk_list_constructors rl sl p hm' hf' hc] at hlen)
  · intro p rl sl hm hf hc hor _ _
    have hm' := Bool.eq_false_iff.2 hm
    have hf' := Bool.eq_false_iff.2 hf
    have hc' := Bool.eq_false_iff.2 hc
    simp only [Bool.or_eq_true] at hor
    rw [cv_list_unordered false rl sl p hm' hf' hc' hor,
      cv_list_unordered true rl sl p hm' hf' hc' hor]
  · intro p rl sl _ _ _ _ _ hemb _ _
    cases hemb
  · intro p rl sl hm hf hc hor hlen _ _ _ hok
    have hm' := Bool.eq_false_iff.2 hm
    have hf' := Bool.eq_false_iff.2 hf
    have hc' := Bool.eq_false_iff.2 hc
    have hno := hor
    simp only [Bool.or_eq_true, not_or, Bool.not_eq_true] at hno
    rw [lenOk_list_positional rl sl p hm' hf' hc' hno.1 hno.2] at hok
    simp only [Bool.and_eq_true] at hok
    have := hok.1
    rw [beq_iff_eq] at this
    rw [bne_iff_ne] at hlen
    exact absurd this hlen
  · intro p rl sl hm hf hc hor hlen _ ih hok
    have hm' := Bool.eq_false_iff.2 hm
    have hf' := Bool.eq_false_iff.2 hf
    have hc' := Bool.eq_false_iff.2 hc
    have hno := hor
    simp only [Bool.or_eq_true, not_or, Bool.not_eq_true] at hno
    have hlen' : ¬rl.length ≠ sl.length := by
      simpa [bne_iff_ne] using hlen
    rw [cv_list_positional false rl sl p hm' hf' hc' hno.1 hno.2,
      cv_list_positional true rl sl p hm' hf' hc' hno.1 hno.2, if_neg hlen', if_neg hlen']
    rw [lenOk_list_positional rl sl p hm' hf' hc' hno.1 hno.2] at hok
    simp only [Bool.and_eq_true] at hok
    exact ih hok.2
  · intro p r s hnd hnl _ _
    rw [cv_catchall false r s p hnd hnl, cv_catchall true r s p hnd hnl]
  · intro sl p i _
    rw [compareZip_nil_left, compareZip_nil_left]
  · intro p i hd tl _
    rw [compareZip_nil_right, compareZip_nil_right]
  · intro p i r rt s st ih1 ih2 hok
    rw [lenOkZip_cons] at hok
    simp only [Bool.and_eq_true] at hok
    obtain ⟨h1, h2⟩ := hok
    rw [compareZip_cons, compareZip_cons, ih1 h1, ih2 h2]
  · intro kind rl sl p e he _
    rw [compareColl_err_left false kind rl sl p he, compareColl_err_left true kind rl sl p he]
  · intro kind rl sl p rm hr e hs _
    rw [compareColl_err_right false kind rl sl p hr hs,
      compareColl_err_right true kind rl sl p hr hs]
  · intro kind rl sl p rm hr sm hs ih hok
    rw [compareColl_ok false kind rl sl p hr hs, compareColl_ok true kind rl sl p hr hs,
      ih (by rwa [lenOkColl_ok kind rl sl p hr hs] at hok)]
  · intro kind sm p _
    rw [compareKeyedRef_nil, compareKeyedRef_nil]
  · intro kind sm p k' v t hq ih hok
    rw [compareKeyedRef_cons_missing false kind p hq, compareKeyedRef_cons_missing true kind p hq,
      ih (by rwa [lenOkKeyed_cons_missing kind p hq] at hok)]
  · intro kind sm p k' v t sv hq e hp _
    rw [compareKeyedRef_cons_patherr false kind p hq hp,
      compareKeyedRef_cons_patherr true kind p hq hp]
  · intro kind sm p k' v t sv hq mp hp ih1 ih2 hok
    rw [lenOkKeyed_cons_found kind p hq hp] at hok
    simp only [Bool.and_eq_true] at hok
    obtain ⟨h1, h2⟩ := hok
    rw [compareKeyedRef_cons_found false kind p hq hp,
      compareKeyedRef_cons_found true kind p hq hp, ih1 h1, ih2 h2]
  · intro skvs p _
    rw [compareDictRef_nil, compareDictRef_nil]
  · intro skvs p k' v t hq ih hok
    rw [compareDictRef_cons_missing false p hq, compareDictRef_cons_missing true p hq,
      ih (by rwa [lenOkDict_cons_missing p hq] at hok)]
  · intro skvs p k' v t sv hq ih1 ih2 hok
    rw [lenOkDict_cons_found p hq] at hok
    simp only [Bool.and_eq_true] at hok
    obtain ⟨h1, h2⟩ := hok
    rw [compareDictRef_cons_found false p hq, compareDictRef_cons_found true p hq,
      ih1 h1, ih2 h2]

theorem classLoop_emb_agree {rm sm : List (Value × Value)}
    (h : lenOkClasses rm sm = true) :
    classLoopRef false rm sm = classLoopRef true rm sm := by
  induction rm with
  | nil => rw [classLoopRef_nil, classLoopRef_nil]
  | cons hd rest ih =>
    obtain ⟨n, rv⟩ := hd
    rw [lenOkClasses] at h
    cases hq : pyLookup n sm with
    | none =>
      rw [hq] at h
      simp only [Bool.true_and] at h
      rw [classLoopRef_cons_missing false hq, classLoopRef_cons_missing true hq, ih h]
    | some sv =>
      rw [hq] at h
      simp only [Bool.and_eq_true] at h
      rw [classLoopRef_cons_found false hq, classLoopRef_cons_found true hq,
        cv_emb_agree _ _ _ h.1, ih h.2]

/-- C9, counterexample: on the positional pair `[1]` vs `[2, 3]` the
standalone differ and the differ embedded in `main.py` return different
discrepancy sequences (different Length-mismatch message, and the
standalone one recurses element-wise), both at value level and through the
corpus-level entry point. -/
theorem C9_counterexample :
    compare_values false (.vList [.vInt 1]) (.vList [.vInt 2, .vInt 3]) "y" ≠
      compare_values true (.vList [.vInt 1]) (.vList [.vInt 2, .vInt 3]) "y" ∧
    compare_uml_files false (.vDict [("A", .vList [.vInt 1])])
        (.vDict [("A", .vList [.vInt 2, .vInt 3])]) ≠
      compare_uml_files true (.vDict [("A", .vList [.vInt 1])])
        (.vDict [("A", .vList [.vInt 2, .vInt 3])]) := by
  have h1 : compare_values false (.vList [.vInt 1]) (.vList [.vInt 2, .vInt 3]) "y" =
      .ok ["y - Length mismatch: expected [1] (1 items), got [2, 3] (2 items)",
           "y[0] - Value mismatch: expected 1, got 2"] := by
    simp +decide [compare_values, compareZip, typeName, strEndsWith, lengthMsgStandalone,
      valueMismatchMsg, pyStr, pyRepr, pyReprList, pyEq]
    rfl
  have h2 : compare_values true (.vList [.vInt 1]) (.vList [.vInt 2, .vInt 3]) "y" =
      .ok ["y - Length mismatch: expected [1], got [2, 3]"] := by
    simp +decide [compare_values, typeName, strEndsWith, lengthMsgEmb, pyStr, pyRepr,
      pyReprList]
  have h3 : ∀ emb ds, compare_values emb (.vList [.vInt 1]) (.vList [.vInt 2, .vInt 3])
      "Class A" = ds →
      compare_uml_files emb (.vDict [("A", .vList [.vInt 1])])
        (.vDict [("A", .vList [.vInt 2, .vInt 3])]) =
        (do
          let d ← ds
          Except.ok (d ++ [])) := by
    intro emb ds hds
    rw [compare_uml_files]
    rw [show toCorpus (Value.vDict [("A", .vList [.vInt 1])]) =
      .ok [(Value.vStr "A", Value.vList [.vInt 1])] from rfl]
    rw [show toCorpus (Value.vDict [("A", .vList [.vInt 2, .vInt 3])]) =
      .ok [(Value.vStr "A", Value.vList [.vInt 2, .vInt 3])] from rfl]
    simp only [Bind.bind, Except.bind]
    rw [@classLoopRef_cons_found emb (Value.vStr "A") (Value.vList [.vInt 1])
      (Value.vList [.vInt 2, .vInt 3]) [] [(Value.vStr "A", Value.vList [.vInt 2, .vInt 3])]
      (by simp [pyLookup, pyEq]), classLoopRef_nil]
    rw [show ("Class " ++ pyStr (Value.vStr "A")) = "Class A" from rfl]
    rw [hds]
    rw [show corpusExtras [(Value.vStr "A", Value.vList [.vInt 1])]
      [(Value.vStr "A", Value.vList [.vInt 2, .vInt 3])] = [] from by
        simp [corpusExtras, pyLookup, pyEq]]
    cases ds <;> simp [Bind.bind, Except.bind]
  have h4 : compare_values false (.vList [.vInt 1]) (.vList [.vInt 2, .vInt 3]) "Class A" =
      .ok ["Class A - Length mismatch: expected [1] (1 items), got [2, 3] (2 items)",
           "Class A[0] - Value mismatch: expected 1, got 2"] := by
    simp +decide [compare_values, compareZip, typeName, strEndsWith, lengthMsgStandalone,
      valueMismatchMsg, pyStr, pyRepr, pyReprList, pyEq]
    rfl
  have h5 : compare_values true (.vList [.vInt 1]) (.vList [.vInt 2, .vInt 3]) "Class A" =
      .ok ["Class A - Length mismatch: expected [1], got [2, 3]"] := by
    simp +decide [compare_values, typeName, strEndsWith, lengthMsgEmb, pyStr, pyRepr,
      pyReprList]
  constructor
  · rw [h1, h2]
    simp
  · rw [h3 false _ h4, h3 true _ h5]
    simp [Bind.bind, Except.bind]

/-- C9, amended: the two differs compute identical discrepancy sequences —
at value level and at corpus level — on every input pair in which all
positionally-compared sequence pairs have equal lengths (`lenOk`); they
diverge exactly at positional length mismatches, where the standalone
script prints item counts and recurses over the zipped prefix while the
embedded copy stops after its shorter message. -/
theorem C9_theorem :
    (∀ (r s : Value) (p : String), lenOk r s p = true →
      compare_values false r s p = compare_values true r s p) ∧
    (∀ rd sd : Value, lenOkFiles rd sd = true →
      compare_uml_files false rd sd = compare_uml_files true rd sd) := by
  refine ⟨cv_emb_agree, ?_⟩
  intro rd sd h
  rw [lenOkFiles] at h
  rw [compare_uml_files, compare_uml_files]
  cases hr : toCorpus rd with
  | error e => rfl
  | ok rm =>
    cases hs : toCorpus sd with
    | error e => rfl
    | ok sm =>
      rw [hr, hs] at h
      replace h : lenOkClasses rm sm = true := h
      simp only [Bind.bind, Except.bind]
      rw [classLoop_emb_agree h]

/-- C9, witness for the amended theorem: equal-length positional input at
value level, and a matching corpus pair at corpus level. -/
theorem C9_witness :
    compare_values false (.vList [.vInt 1]) (.vList [.vInt 7]) "w" =
      compare_values true (.vList [.vInt 1]) (.vList [.vInt 7]) "w" ∧
    compare_uml_files false (.vDict [("A", .vInt 1)]) (.vDict [("A", .vInt 2)]) =
      compare_uml_files true (.vDict [("A", .vInt 1)]) (.vDict [("A", .vInt 2)]) :=
  ⟨C9_theorem.1 (.vList [.vInt 1]) (.vList [.vInt 7]) "w"
    (by simp +decide [lenOk, lenOkZip, typeName, strEndsWith]),
   C9_theorem.2 (.vDict [("A", .vInt 1)]) (.vDict [("A", .vInt 2)])
    (by simp +decide [lenOkFiles, toCorpus, lenOkClasses, pyLookup, pyEq, lenOk, typeName])⟩

theorem safeV_scalar {v : Value} (p : String) (h : isScalar v = true) :
    safeV v p = true := by
  cases v <;> simp [isScalar] at h <;> rw [safeV]

theorem safeV_dict (kvs : List (String × Value)) (p : String) :
    safeV (.vDict kvs) p = (distinctStrKeys (kvs.map Prod.fst) && safeDict kvs p) := by
  rw [safeV]

theorem safeV_list_methods (l : List Value) (p : String)
    (h : strEndsWith p ".methods" = true) :
    safeV (.vList l) p = safeKeyed .methods l p := by
  rw [safeV]
  simp [h]

theorem safeV_list_fields (l : List Value) (p : String)
    (h1 : strEndsWith p ".methods" = false) (h : strEndsWith p ".fields" = true) :
    safeV (.vList l) p = safeKeyed .fields l p := by
  rw [safeV]
  simp [h1, h]

theorem safeV_list_constructors (l : List Value) (p : String)
    (h1 : strEndsWith p ".methods" = false) (h2 : strEndsWith p ".fields" = false)
    (h : strEndsWith p ".constructors" = true) :
    safeV (.vList l) p = safeKeyed .constructors l p := by
  rw [safeV]
  simp [h1, h2, h]

theorem safeV_list_unordered (l : List Value) (p : String)
    (h1 : strEndsWith p ".methods" = false) (h2 : strEndsWith p ".fields" = false)
    (h3 : strEndsWith p ".constructors" = false)
    (h : strEndsWith p ".extends" = true ∨ strEndsWith p ".implements" = true) :
    safeV (.vList l) p = allVStr l := by
  rw [safeV]
  rcases h with h | h <;> simp [h1, h2, h3, h]

theorem safeV_list_positional (l : List Value) (p : String)
    (h1 : strEndsWith p ".methods" = false) (h2 : strEndsWith p ".fields" = false)
    (h3 : strEndsWith p ".constructors" = false) (h4 : strEndsWith p ".extends" = false)
    (h5 : strEndsWith p ".implements" = false) :
    safeV (.vList l) p = safeZip l p 0 := by
  rw [safeV]
  simp [h1, h2, h3, h4, h5]

theorem safeDict_all {kvs : List (String × Value)} {p : String}
    (h : safeDict kvs p = true) :
    ∀ kv ∈ kvs, safeV (kv : String × Value).2 (p ++ "." ++ kv.1) = true := by
  induction kvs with
  | nil => simp
  | cons hd t ih =>
    obtain ⟨k, v⟩ := hd
    rw [safeDict] at h
    simp only [Bool.and_eq_true] at h
    intro kv hkv
    rcases List.mem_cons.1 hkv with rfl | hm
    · exact h.1
    · exact ih h.2 kv hm

theorem safeZip_cons (x : Value) (t : List Value) (p : String) (i : Nat) :
    safeZip (x :: t) p i = (safeV x (p ++ "[" ++ toString i ++ "]") && safeZip t p (i + 1)) := by
  rw [safeZip]

theorem safeKeyed_cons_destruct {kind : CollKind} {m : Value} {t : List Value} {p : String}
    (h : safeKeyed kind (m :: t) p = true) :
    (∃ k mp, collKeyFn kind m = .ok k ∧ goodKey kind k = true ∧
      matchedPath kind p k = .ok mp ∧ safeV m mp = true) ∧ safeKeyed kind t p = true := by
  rw [safeKeyed] at h
  simp only [Bool.and_eq_true] at h
  refine ⟨?_, h.2⟩
  have h1 := h.1
  cases hk : collKeyFn kind m with
  | error e => rw [hk] at h1; cases h1
  | ok k =>
    rw [hk] at h1
    simp only [Bool.and_eq_true] at h1
    cases hp : matchedPath kind p k with
    | error e => rw [hp] at h1; exact absurd h1.2 (by simp)
    | ok mp =>
      rw [hp] at h1
      exact ⟨k, mp, rfl, h1.1, hp, h1.2⟩

theorem keyPairs_ok_of_safe {kind : CollKind} {l : List Value} {p : String}
    (h : safeKeyed kind l p = true) :
    ∃ ps, keyPairs kind l = .ok ps ∧ ∀ kv ∈ ps, goodKey kind (kv : Value × Value).1 = true ∧
      ∃ mp, matchedPath kind p kv.1 = .ok mp ∧ safeV kv.2 mp = true := by
  induction l with
  | nil => exact ⟨[], rfl, by simp⟩
  | cons m t ih =>
    obtain ⟨⟨k, mp, hk, hg, hp, hs⟩, ht⟩ := safeKeyed_cons_destruct h
    obtain ⟨ps, hps, hinv⟩ := ih ht
    refine ⟨(k, m) :: ps, ?_, ?_⟩
    · rw [keyPairs, hk, hps]
    · intro kv hkv
      rcases List.mem_cons.1 hkv with rfl | hm
      · exact ⟨hg, mp, hp, hs⟩
      · exact hinv kv hm

theorem setLastPy_inv {kind : CollKind} {k v : Value}
    {acc : List (Value × Value)}
    (Q : Value × Value → Prop)
    (hQ : Q (k, v))
    (hk : goodKey kind k = true)
    (hacc : ∀ kv ∈ acc, goodKey kind (kv : Value × Value).1 = true ∧ Q kv) :
    ∀ kv ∈ setLastPy k v acc, goodKey kind (kv : Value × Value).1 = true ∧ Q kv := by
  induction acc with
  | nil =>
    intro kv hkv
    simp only [setLastPy, List.mem_singleton] at hkv
    subst hkv
    exact ⟨hk, hQ⟩
  | cons hd t ih =>
    obtain ⟨k1, v1⟩ := hd
    intro kv hkv
    simp only [setLastPy] at hkv
    split at hkv
    · rename_i h1k
      have hk1 : goodKey kind k1 = true := (hacc (k1, v1) (List.mem_cons_self _ _)).1
      have : k = k1 := (goodKey_pyEq_left hk1).1 h1k
      subst this
      rcases List.mem_cons.1 hkv with rfl | hm
      · exact ⟨hk, hQ⟩
      · exact hacc kv (List.mem_cons_of_mem _ hm)
    · rcases List.mem_cons.1 hkv with rfl | hm
      · exact hacc (k1, v1) (List.mem_cons_self _ _)
      · exact ih (fun kv' hkv' => hacc kv' (List.mem_cons_of_mem _ hkv')) kv hm

theorem corpBuild_inv {kind : CollKind}
    (Q : Value × Value → Prop) {ps acc : List (Value × Value)}
    (hps : ∀ kv ∈ ps, goodKey kind (kv : Value × Value).1 = true ∧ Q kv)
    (hacc : ∀ kv ∈ acc, goodKey kind (kv : Value × Value).1 = true ∧ Q kv) :
    ∀ kv ∈ corpBuild acc ps, goodKey kind (kv : Value × Value).1 = true ∧ Q kv := by
  induction ps generalizing acc with
  | nil => simpa [corpBuild] using hacc
  | cons hd t ih =>
    obtain ⟨k, v⟩ := hd
    simp only [corpBuild]
    have hk := (hps (k, v) (List.mem_cons_self _ _)).1
    have hQ := (hps (k, v) (List.mem_cons_self _ _)).2
    exact ih (fun kv hkv => hps kv (List.mem_cons_of_mem _ hkv))
      (setLastPy_inv Q hQ hk hacc)

theorem buildKeyMap_inv {kind : CollKind} {l : List Value} {p : String}
    {m : List (Value × Value)}
    (h : safeKeyed kind l p = true) (hb : buildKeyMap kind l = .ok m) :
    ∀ kv ∈ m, goodKey kind (kv : Value × Value).1 = true ∧
      ∃ mp, matchedPath kind p kv.1 = .ok mp ∧ safeV kv.2 mp = true := by
  obtain ⟨ps, hps, hinv⟩ := keyPairs_ok_of_safe h
  rw [buildKeyMap, hps] at hb
  cases hb
  exact corpBuild_inv _
    (fun kv hkv => ⟨(hinv kv hkv).1, (hinv kv hkv).2⟩) (by simp)

theorem buildKeyMap_ok_of_safe {kind : CollKind} {l : List Value} {p : String}
    (h : safeKeyed kind l p = true) : ∃ m, buildKeyMap kind l = .ok m := by
  obtain ⟨ps, hps, -⟩ := keyPairs_ok_of_safe h
  exact ⟨corpBuild [] ps, by rw [buildKeyMap, hps]⟩

theorem allVStr_exists_strings {l : List Value} (h : allVStr l = true) :
    ∃ xs : List String, l = xs.map Value.vStr := by
  induction l with
  | nil => exact ⟨[], rfl⟩
  | cons x t ih =>
    cases x <;> simp [allVStr] at h
    obtain ⟨xs, hxs⟩ := ih h
    rename_i s
    exact ⟨s :: xs, by rw [hxs]; rfl⟩

/-- Totality of the value differ on hereditarily well-formed inputs
(`safeV`): it always returns a discrepancy list, never an exception. -/
theorem cv_total (emb : Bool) : ∀ (r s : Value) (p : String),
    safeV r p = true → safeV s p = true →
    ∃ ds, compare_values emb r s p = Except.ok ds := by
  refine compare_values.induct emb
    (fun r s p => safeV r p = true → safeV s p = true →
      ∃ ds, compare_values emb r s p = Except.ok ds)
    (fun rl sl p i => safeZip rl p i = true → safeZip sl p i = true →
      ∃ ds, compareZip emb rl sl p i = Except.ok ds)
    (fun kind rl sl p => safeKeyed kind rl p = true → safeKeyed kind sl p = true →
      ∃ ds, compareColl emb kind rl sl p = Except.ok ds)
    (fun kind rm sm p =>
      (∀ kv ∈ rm, goodKey kind (kv : Value × Value).1 = true ∧
        ∃ mp, matchedPath kind p kv.1 = Except.ok mp ∧ safeV kv.2 mp = true) →
      (∀ kv ∈ sm, goodKey kind (kv : Value × Value).1 = true ∧
        ∃ mp, matchedPath kind p kv.1 = Except.ok mp ∧ safeV kv.2 mp = true) →
      ∃ ds, compareKeyedRef emb kind rm sm p = Except.ok ds)
    (fun rkvs skvs p =>
      (∀ kv ∈ rkvs, safeV (kv : String × Value).2 (p ++ "." ++ kv.1) = true) →
      (∀ kv ∈ skvs, safeV (kv : String × Value).2 (p ++ "." ++ kv.1) = true) →
      ∃ ds, compareDictRef emb rkvs skvs p = Except.ok ds)
    ?_ ?_ ?_ ?_ ?_ ?_ ?_ ?_ ?_ ?_ ?_ ?_ ?_ ?_ ?_ ?_ ?_ ?_ ?_ ?_ ?_ ?_ ?_
  · intro r s p h _ _
    exact ⟨_, cv_type_mismatch emb r s p (bne_iff_ne.1 h)⟩
  · intro p rk sk _ ih hr hs
    rw [safeV_dict] at hr hs
    simp only [Bool.and_eq_true] at hr hs
    obtain ⟨ds, hds⟩ := ih (safeDict_all hr.2) (safeDict_all hs.2)
    exact ⟨ds ++ dictExtras rk sk p, by rw [cv_dict, hds]; rfl⟩
  · intro p rl sl hm _ ih hr hs
    rw [safeV_list_methods rl p hm] at hr
    rw [safeV_list_methods sl p hm] at hs
    obtain ⟨ds, hds⟩ := ih hr hs
    exact ⟨ds, by rw [cv_list_methods emb rl sl p hm]; exact hds⟩
  · intro p rl sl hm hf _ ih hr hs
    have hm' := Bool.eq_false_iff.2 hm
    rw [safeV_list_fields rl p hm' hf] at hr
    rw [safeV_list_fields sl p hm' hf] at hs
    obtain ⟨ds, hds⟩ := ih hr hs
    exact ⟨ds, by rw [cv_list_fields emb rl sl p hm' hf]; exact hds⟩
  · intro p rl sl hm hf hc _ ih hr hs
    have hm' := Bool.eq_false_iff.2 hm
    have hf' := Bool.eq_false_iff.2 hf
    rw [safeV_list_constructors rl p hm' hf' hc] at hr
    rw [safeV_list_constructors sl p hm' hf' hc] at hs
    obtain ⟨ds, hds⟩ := ih hr hs
    exact ⟨ds, by rw [cv_list_constructors emb rl sl p hm' hf' hc]; exact hds⟩
  · intro p rl sl hm hf hc hor _ hr hs
    have hm' := Bool.eq_false_iff.2 hm
    have hf' := Bool.eq_false_iff.2 hf
    have hc' := Bool.eq_false_iff.2 hc
    simp only [Bool.or_eq_true] at hor
    rw [safeV_list_unordered rl p hm' hf' hc' hor] at hr
    rw [safeV_list_unordered sl p hm' hf' hc' hor] at hs
    obtain ⟨xs, rfl⟩ := allVStr_exists_strings hr
    obtain ⟨ys, rfl⟩ := allVStr_exists_strings hs
    refine ⟨if pyEqList ((sortStrs xs).map .vStr) ((sortStrs ys).map .vStr) = true then []
      else [contentMismatchMsg p ((sortStrs xs).map .vStr) ((sortStrs ys).map .vStr)], ?_⟩
    rw [cv_list_unordered emb _ _ p hm' hf' hc' hor, pySort_map, pySort_map]
    rfl
  · intro p rl sl hm hf hc hor hlen hemb _ hr hs
    subst hemb
    have hm' := Bool.eq_false_iff.2 hm
    have hf' := Bool.eq_false_iff.2 hf
    have hc' := Bool.eq_false_iff.2 hc
    have hno := hor
    simp only [Bool.or_eq_true, not_or, Bool.not_eq_true] at hno
    have hlen' : rl.length ≠ sl.length := bne_iff_ne.1 hlen
    refine ⟨[lengthMsgEmb p rl sl], ?_⟩
    rw [cv_list_positional true rl sl p hm' hf' hc' hno.1 hno.2, if_pos hlen']
    rfl
  · intro p rl sl hm hf hc hor hlen hnemb _ ih hr hs
    have hm' := Bool.eq_false_iff.2 hm
    have hf' := Bool.eq_false_iff.2 hf
    have hc' := Bool.eq_false_iff.2 hc
    have hno := hor
    simp only [Bool.or_eq_true, not_or, Bool.not_eq_true] at hno
    rw [safeV_list_positional rl p hm' hf' hc' hno.1 hno.2] at hr
    rw [safeV_list_positional sl p hm' hf' hc' hno.1 hno.2] at hs
    obtain ⟨zs, hzs⟩ := ih hr hs
    have hlen' : rl.length ≠ sl.length := bne_iff_ne.1 hlen
    refine ⟨lengthMsgStandalone p rl sl :: zs, ?_⟩
    rw [cv_list_positional emb rl sl p hm' hf' hc' hno.1 hno.2, if_pos hlen',
      if_neg hnemb, hzs]
    rfl
  · intro p rl sl hm hf hc hor hlen _ ih hr hs
    have hm' := Bool.eq_false_iff.2 hm
    have hf' := Bool.eq_false_iff.2 hf
    have hc' := Bool.eq_false_iff.2 hc
    have hno := hor
    simp only [Bool.or_eq_true, not_or, Bool.not_eq_true] at hno
    rw [safeV_list_positional rl p hm' hf' hc' hno.1 hno.2] at hr
    rw [safeV_list_positional sl p hm' hf' hc' hno.1 hno.2] at hs
    obtain ⟨zs, hzs⟩ := ih hr hs
    have hlen' : ¬rl.length ≠ sl.length := by
      simpa [bne_iff_ne] using hlen
    refine ⟨zs, ?_⟩
    rw [cv_list_positional emb rl sl p hm' hf' hc' hno.1 hno.2, if_neg hlen']
    exact hzs
  · intro p r s hnd hnl _ _ _
    cases hb : (typeName r != typeName s) with
    | true => exact ⟨_, by rw [cv_catchall emb r s p hnd hnl, hb]; rfl⟩
    | false => exact ⟨_, by rw [cv_catchall emb r s p hnd hnl, hb]; rfl⟩
  · intro sl p i _ _
    exact ⟨[], compareZip_nil_left emb sl p i⟩
  · intro p i hd tl _ _
    exact ⟨[], compareZip_nil_right emb hd tl p i⟩
  · intro p i r rt s st ih1 ih2 hr hs
    rw [safeZip_cons] at hr hs
    simp only [Bool.and_eq_true] at hr hs
    obtain ⟨d, hd⟩ := ih1 hr.1 hs.1
    obtain ⟨ds, hds⟩ := ih2 hr.2 hs.2
    exact ⟨d ++ ds, by rw [compareZip_cons, hd, hds]; rfl⟩
  · intro kind rl sl p e he hr hs
    obtain ⟨m, hm⟩ := buildKeyMap_ok_of_safe hr
    rw [hm] at he
    cases he
  · intro kind rl sl p rm hbr e hbs hr hs
    obtain ⟨m, hm⟩ := buildKeyMap_ok_of_safe hs
    rw [hm] at hbs
    cases hbs
  · intro kind rl sl p rm hbr sm hbs ih hr hs
    obtain ⟨ds, hds⟩ := ih (buildKeyMap_inv hr hbr) (buildKeyMap_inv hs hbs)
    exact ⟨ds ++ keyedExtras kind rm sm p,
      by rw [compareColl_ok emb kind rl sl p hbr hbs, hds]; rfl⟩
  · intro kind sm p _ _
    exact ⟨[], compareKeyedRef_nil emb kind sm p⟩
  · intro kind sm p k' v t hq ih hr hs
    obtain ⟨ds, hds⟩ := ih (fun kv hkv => hr kv (List.mem_cons_of_mem _ hkv)) hs
    exact ⟨missingItemMsg kind p k' :: ds,
      by rw [compareKeyedRef_cons_missing emb kind p hq, hds]; rfl⟩
  · intro kind sm p k' v t sv hq e hp hr hs
    obtain ⟨hgk, mp, hmp, -⟩ := hr (k', v) (List.mem_cons_self _ _)
    rw [hp] at hmp
    exact Except.noConfusion hmp
  · intro kind sm p k' v t sv hq mp hp ih1 ih2 hr hs
    obtain ⟨hgk, mp', hmp', hsv⟩ := hr (k', v) (List.mem_cons_self _ _)
    rw [hp] at hmp'
    injection hmp' with hmpe
    subst hmpe
    obtain ⟨k2, hmem, hkeq⟩ := pyLookup_mem hq
    obtain ⟨hgk2, mp2, hmp2, hssv⟩ := hs (k2, sv) hmem
    have hk : k' = k2 := (goodKey_pyEq_left hgk2).1 hkeq
    rw [← hk] at hmp2
    rw [hp] at hmp2
    injection hmp2 with hmpe2
    subst hmpe2
    obtain ⟨d, hd⟩ := ih1 hsv hssv
    obtain ⟨ds, hds⟩ := ih2 (fun kv hkv => hr kv (List.mem_cons_of_mem _ hkv)) hs
    exact ⟨d ++ ds, by rw [compareKeyedRef_cons_found emb kind p hq hp, hd, hds]; rfl⟩
  · intro skvs p _ _
    exact ⟨[], compareDictRef_nil emb skvs p⟩
  · intro skvs p k' v t hq ih hr hs
    obtain ⟨ds, hds⟩ := ih (fun kv hkv => hr kv (List.mem_cons_of_mem _ hkv)) hs
    exact ⟨(p ++ "." ++ k' ++ " - Missing key") :: ds,
      by rw [compareDictRef_cons_missing emb p hq, hds]; rfl⟩
  · intro skvs p k' v t sv hq ih1 ih2 hr hs
    have hsv : safeV v (p ++ "." ++ k') = true := hr (k', v) (List.mem_cons_self _ _)
    have hssv : safeV sv (p ++ "." ++ k') = true := hs (k', sv) (slookup_mem hq)
    obtain ⟨d, hd⟩ := ih1 hsv hssv
    obtain ⟨ds, hds⟩ := ih2 (fun kv hkv => hr kv (List.mem_cons_of_mem _ hkv)) hs
    exact ⟨d ++ ds, by rw [compareDictRef_cons_found emb p hq, hd, hds]; rfl⟩

/-- C3, counterexample: merely matching the §6 ClassStructure shape at the
top level does not make the differ total.  The spec allows arbitrary extra
attributes, "which compare generically" — but an extra attribute holding a
mapping with a key named `methods` whose sequence contains a non-mapping
re-enters the path-suffix keyed dispatch, and key construction calls
`.get` on a string: the comparison raises `AttributeError` even when
comparing such a §6-valid class against itself. -/
theorem C3_counterexample :
    classShape6 (Value.vDict [("name", Value.vStr "A"), ("extends", Value.vList []),
        ("implements", Value.vList []), ("fields", Value.vList []),
        ("methods", Value.vList []), ("constructors", Value.vList []),
        ("w", Value.vDict [("methods", Value.vList [Value.vStr "m"])])]) = true ∧
    compare_values false
      (Value.vDict [("name", Value.vStr "A"), ("extends", Value.vList []),
        ("implements", Value.vList []), ("fields", Value.vList []),
        ("methods", Value.vList []), ("constructors", Value.vList []),
        ("w", Value.vDict [("methods", Value.vList [Value.vStr "m"])])])
      (Value.vDict [("name", Value.vStr "A"), ("extends", Value.vList []),
        ("implements", Value.vList []), ("fields", Value.vList []),
        ("methods", Value.vList []), ("constructors", Value.vList []),
        ("w", Value.vDict [("methods", Value.vList [Value.vStr "m"])])])
      "Class A" = Except.error "AttributeError" := by
  constructor
  · decide
  · have hname : compare_values false (.vStr "A") (.vStr "A")
        ("Class A" ++ "." ++ "name") = Except.ok [] := by
      rw [cv_scalar_eval false (.vStr "A") (.vStr "A") ("Class A" ++ "." ++ "name") rfl rfl]
      simp +decide [typeName, pyEq]
    have hext : compare_values false (.vList []) (.vList [])
        ("Class A" ++ "." ++ "extends") = Except.ok [] := by
      rw [cv_list_unordered false [] [] _ (by decide) (by decide) (by decide)
        (Or.inl (by decide))]
      simp +decide [pySort, pyEqList, Bind.bind, Except.bind]
    have himp : compare_values false (.vList []) (.vList [])
        ("Class A" ++ "." ++ "implements") = Except.ok [] := by
      rw [cv_list_unordered false [] [] _ (by decide) (by decide) (by decide)
        (Or.inr (by decide))]
      simp +decide [pySort, pyEqList, Bind.bind, Except.bind]
    have hfld : compare_values false (.vList []) (.vList [])
        ("Class A" ++ "." ++ "fields") = Except.ok [] := by
      have hb : buildKeyMap CollKind.fields [] = Except.ok [] := rfl
      rw [cv_list_fields false [] [] _ (by decide) (by decide),
        compareColl_ok false .fields [] [] _ hb hb, compareKeyedRef_nil]
      rfl
    have hmet : compare_values false (.vList []) (.vList [])
        ("Class A" ++ "." ++ "methods") = Except.ok [] := by
      have hb : buildKeyMap CollKind.methods [] = Except.ok [] := rfl
      rw [cv_list_methods false [] [] _ (by decide),
        compareColl_ok false .methods [] [] _ hb hb, compareKeyedRef_nil]
      rfl
    have hctor : compare_values false (.vList []) (.vList [])
        ("Class A" ++ "." ++ "constructors") = Except.ok [] := by
      have hb : buildKeyMap CollKind.constructors [] = Except.ok [] := rfl
      rw [cv_list_constructors false [] [] _ (by decide) (by decide) (by decide),
        compareColl_ok false .constructors [] [] _ hb hb, compareKeyedRef_nil]
      rfl
    have h1 : compare_values false (.vList [.vStr "m"]) (.vList [.vStr "m"])
        ("Class A" ++ "." ++ "w" ++ "." ++ "methods") = Except.error "AttributeError" := by
      rw [cv_list_methods false _ _ _ (by decide)]
      exact compareColl_err_left false .methods _ _ _ rfl
    have hw : compare_values false (.vDict [("methods", Value.vList [Value.vStr "m"])])
        (.vDict [("methods", Value.vList [Value.vStr "m"])])
        ("Class A" ++ "." ++ "w") = Except.error "AttributeError" := by
      have q : slookup "methods" [("methods", Value.vList [Value.vStr "m"])] =
          some (Value.vList [Value.vStr "m"]) := rfl
      rw [cv_dict, compareDictRef_cons_found false ("Class A" ++ "." ++ "w") q, h1]
      rfl
    have q1 : slookup "name" [("name", Value.vStr "A"), ("extends", Value.vList []),
        ("implements", Value.vList []), ("fields", Value.vList []),
        ("methods", Value.vList []), ("constructors", Value.vList []),
        ("w", Value.vDict [("methods", Value.vList [Value.vStr "m"])])] =
        some (Value.vStr "A") := rfl
    have q2 : slookup "extends" [("name", Value.vStr "A"), ("extends", Value.vList []),
        ("implements", Value.vList []), ("fields", Value.vList []),
        ("methods", Value.vList []), ("constructors", Value.vList []),
        ("w", Value.vDict [("methods", Value.vList [Value.vStr "m"])])] =
        some (Value.vList []) := rfl
    have q3 : slookup "implements" [("name", Value.vStr "A"), ("extends", Value.vList []),
        ("implements", Value.vList []), ("fields", Value.vList []),
        ("methods", Value.vList []), ("constructors", Value.vList []),
        ("w", Value.vDict [("methods", Value.vList [Value.vStr "m"])])] =
        some (Value.vList []) := rfl
    have q4 : slookup "fields" [("name", Value.vStr "A"), ("extends", Value.vList []),
        ("implements", Value.vList []), ("fields", Value.vList []),
        ("methods", Value.vList []), ("constructors", Value.vList []),
        ("w", Value.vDict [("methods", Value.vList [Value.vStr "m"])])] =
        some (Value.vList []) := rfl
    have q5 : slookup "methods" [("name", Value.vStr "A"), ("extends", Value.vList []),
        ("implements", Value.vList []), ("fields", Value.vList []),
        ("methods", Value.vList []), ("constructors", Value.vList []),
        ("w", Value.vDict [("methods", Value.vList [Value.vStr "m"])])] =
        some (Value.vList []) := rfl
    have q6 : slookup "constructors" [("name", Value.vStr "A"), ("extends", Value.vList []),
        ("implements", Value.vList []), ("fields", Value.vList []),
        ("methods", Value.vList []), ("constructors", Value.vList []),
        ("w", Value.vDict [("methods", Value.vList [Value.vStr "m"])])] =
        some (Value.vList []) := rfl
    have q7 : slookup "w" [("name", Value.vStr "A"), ("extends", Value.vList []),
        ("implements", Value.vList []), ("fields", Value.vList []),
        ("methods", Value.vList []), ("constructors", Value.vList []),
        ("w", Value.vDict [("methods", Value.vList [Value.vStr "m"])])] =
        some (Value.vDict [("methods", Value.vList [Value.vStr "m"])]) := rfl
    rw [cv_dict, compareDictRef_cons_found false "Class A" q1, hname,
      compareDictRef_cons_found false "Class A" q2, hext,
      compareDictRef_cons_found false "Class A" q3, himp,
      compareDictRef_cons_found false "Class A" q4, hfld,
      compareDictRef_cons_found false "Class A" q5, hmet,
      compareDictRef_cons_found false "Class A" q6, hctor,
      compareDictRef_cons_found false "Class A" q7, hw]
    rfl

/-- C3, amended: the differ is total — it always terminates with a
discrepancy list and never raises — on hereditarily well-formed inputs:
trees whose mappings have pairwise-distinct string keys and in which
every sequence reached at a keyed-collection path (`.methods`, `.fields`,
`.constructors`) consists of mappings with string names / string parameter
sequences and every sequence reached at an unordered-set path consists of
strings (`safeV`).  The §6 shape alone is NOT sufficient
(`C3_counterexample`): an extra attribute can smuggle a malformed
collection under a suffix-matching path and crash key construction. -/
theorem C3_theorem (emb : Bool) (r s : Value) (p : String)
    (hr : safeV r p = true) (hs : safeV s p = true) :
    ∃ ds, compare_values emb r s p = Except.ok ds :=
  cv_total emb r s p hr hs

/-- C3, witness: a concrete hereditarily well-formed class mapping, whose
self-comparison the theorem shows to return normally. -/
theorem C3_witness :
    safeV (Value.vDict [("name", Value.vStr "A")]) "Class A" = true ∧
    ∃ ds, compare_values false (Value.vDict [("name", Value.vStr "A")])
      (Value.vDict [("name", Value.vStr "A")]) "Class A" = Except.ok ds := by
  have hsafe : safeV (Value.vDict [("name", Value.vStr "A")]) "Class A" = true := by
    simp +decide [safeV, safeDict, distinctStrKeys]
  exact ⟨hsafe, C3_theorem false _ _ _ hsafe hsafe⟩

theorem pyEq_refl_scalar {v : Value} (h : isScalar v = true) : pyEq v v = true := by
  cases v <;> simp [isScalar, pyEq] at h ⊢

theorem slookup_isSome_of_mem {k : String} {v : Value} {kvs : List (String × Value)}
    (h : (k, v) ∈ kvs) : (slookup k kvs).isSome = true := by
  induction kvs with
  | nil => cases h
  | cons hd t ih =>
    obtain ⟨k1, v1⟩ := hd
    simp only [slookup]
    rcases List.mem_cons.1 h with heq | hm
    · injection heq with h1 h2
      subst h1
      simp
    · split
      · simp
      · exact ih hm

theorem slookup_self_of_distinct {kvs : List (String × Value)}
    (hd : distinctStrKeys (kvs.map Prod.fst) = true) {k : String} {v : Value}
    (h : (k, v) ∈ kvs) : slookup k kvs = some v := by
  induction kvs with
  | nil => cases h
  | cons hd9 t ih =>
    obtain ⟨k1, v1⟩ := hd9
    simp only [List.map, distinctStrKeys, Bool.and_eq_true, Bool.not_eq_true] at hd
    simp only [slookup]
    rcases List.mem_cons.1 h with heq | hm
    · injection heq with h1 h2
      subst h1
      subst h2
      simp
    · split
      · rename_i hk
        simp only [beq_iff_eq] at hk
        subst hk
        have hc : (t.map Prod.fst).contains k1 = true :=
          List.elem_iff.2 (List.mem_map.2 ⟨(k1, v), hm, rfl⟩)
        rw [hc] at hd
        cases hd.1
      · exact ih hd.2 hm

theorem dictExtras_self (kvs : List (String × Value)) (p : String) :
    dictExtras kvs kvs p = [] := by
  rw [dictExtras]
  have : kvs.filter (fun kv => (slookup kv.1 kvs).isNone) = [] := by
    rw [List.filter_eq_nil]
    intro kv hkv
    obtain ⟨k, v⟩ := kv
    show ¬(slookup k kvs).isNone = true
    have hsome := slookup_isSome_of_mem hkv
    intro hcon
    rw [Option.isNone_iff_eq_none] at hcon
    rw [hcon] at hsome
    cases hsome
  rw [this]
  rfl

theorem setLastPy_pairwise {kind : CollKind} {k v : Value} {acc : List (Value × Value)}
    (hk : goodKey kind k = true)
    (hp : acc.Pairwise (fun a b => a.1 ≠ b.1)) :
    (setLastPy k v acc).Pairwise (fun a b => a.1 ≠ b.1) := by
  induction acc with
  | nil => simp [setLastPy]
  | cons hd t ih =>
    obtain ⟨k1, v1⟩ := hd
    rw [List.pairwise_cons] at hp
    simp only [setLastPy]
    split
    · exact List.pairwise_cons.2 ⟨hp.1, hp.2⟩
    · rename_i hne
      refine List.pairwise_cons.2 ⟨?_, ih hp.2⟩
      intro kv hkv
      show k1 ≠ kv.1
      rcases setLastPy_keys_sub hkv with h1 | ⟨kv', hkv', he⟩
      · rw [h1]
        intro hcon
        rw [hcon] at hne
        exact hne (((goodKey_pyEq_right hk).2 rfl))
      · rw [he]
        exact hp.1 kv' hkv'

theorem corpBuild_pairwise {kind : CollKind} {ps acc : List (Value × Value)}
    (hg : ∀ kv ∈ ps, goodKey kind (kv : Value × Value).1 = true)
    (hp : acc.Pairwise (fun a b => a.1 ≠ b.1)) :
    (corpBuild acc ps).Pairwise (fun a b => a.1 ≠ b.1) := by
  induction ps generalizing acc with
  | nil => simpa [corpBuild] using hp
  | cons hd t ih =>
    obtain ⟨k, v⟩ := hd
    simp only [corpBuild]
    exact ih (fun kv hkv => hg kv (List.mem_cons_of_mem _ hkv))
      (setLastPy_pairwise (hg (k, v) (List.mem_cons_self _ _)) hp)

theorem pyLookup_self_of_pairwise {kind : CollKind} {m : List (Value × Value)}
    (hg : ∀ kv ∈ m, goodKey kind (kv : Value × Value).1 = true)
    (hp : m.Pairwise (fun a b => a.1 ≠ b.1)) {k v : Value}
    (hmem : (k, v) ∈ m) : pyLookup k m = some v := by
  induction m with
  | nil => cases hmem
  | cons hd t ih =>
    obtain ⟨k1, v1⟩ := hd
    rw [List.pairwise_cons] at hp
    simp only [pyLookup]
    rcases List.mem_cons.1 hmem with heq | hm
    · injection heq with h1 h2
      subst h1
      subst h2
      rw [(goodKey_pyEq_left (hg (k, v) (List.mem_cons_self _ _))).2 rfl]
      simp
    · cases hpe : pyEq k1 k with
      | false =>
        simp only [Bool.false_eq_true, if_false]
        exact ih (fun kv hkv => hg kv (List.mem_cons_of_mem _ hkv)) hp.2 hm
      | true =>
        have hk1 : goodKey kind k1 = true := hg (k1, v1) (List.mem_cons_self _ _)
        have : k = k1 := (goodKey_pyEq_left hk1).1 hpe
        subst this
        exact absurd rfl (hp.1 (k, v) hm)

theorem keyedExtras_self {kind : CollKind} {m : List (Value × Value)}
    (hg : ∀ kv ∈ m, goodKey kind (kv : Value × Value).1 = true)
    (hp : m.Pairwise (fun a b => a.1 ≠ b.1)) (p : String) :
    keyedExtras kind m m p = [] := by
  rw [keyedExtras]
  have : m.filter (fun kv => (pyLookup kv.1 m).isNone) = [] := by
    rw [List.filter_eq_nil]
    intro kv hkv
    obtain ⟨k, v⟩ := kv
    show ¬(pyLookup k m).isNone = true
    have hsome := pyLookup_self_of_pairwise hg hp hkv
    rw [hsome]
    simp
  rw [this]
  rfl

theorem isScalar_of_selfnot (r : Value)
    (hnd : ∀ rkvs skvs : List (String × Value), r = .vDict rkvs → r = .vDict skvs → False)
    (hnl : ∀ rl sl : List Value, r = .vList rl → r = .vList sl → False) :
    isScalar r = true := by
  cases r with
  | vDict kvs => exact absurd rfl (fun h => hnd kvs kvs h h)
  | vList l => exact absurd rfl (fun h => hnl l l h h)
  | vStr s => rfl
  | vInt n => rfl
  | vBool b => rfl
  | vNull => rfl

/-- Reflexivity of the value differ on hereditarily well-formed inputs:
comparing a tree against itself yields the empty discrepancy list. -/
theorem cv_refl (emb : Bool) : ∀ (r s : Value) (p : String),
    safeV r p = true → r = s → compare_values emb r s p = Except.ok [] := by
  refine compare_values.induct emb
    (fun r s p => safeV r p = true → r = s →
      compare_values emb r s p = Except.ok [])
    (fun rl sl p i => safeZip rl p i = true → rl = sl →
      compareZip emb rl sl p i = Except.ok [])
    (fun kind rl sl p => safeKeyed kind rl p = true → rl = sl →
      compareColl emb kind rl sl p = Except.ok [])
    (fun kind rm sm p =>
      (∀ kv ∈ rm, pyLookup (kv : Value × Value).1 sm = some kv.2 ∧
        goodKey kind kv.1 = true ∧
        ∃ mp, matchedPath kind p kv.1 = Except.ok mp ∧ safeV kv.2 mp = true) →
      compareKeyedRef emb kind rm sm p = Except.ok [])
    (fun rkvs skvs p =>
      (∀ kv ∈ rkvs, slookup (kv : String × Value).1 skvs = some kv.2 ∧
        safeV kv.2 (p ++ "." ++ kv.1) = true) →
      compareDictRef emb rkvs skvs p = Except.ok [])
    ?_ ?_ ?_ ?_ ?_ ?_ ?_ ?_ ?_ ?_ ?_ ?_ ?_ ?_ ?_ ?_ ?_ ?_ ?_ ?_ ?_ ?_ ?_
  · intro r s p h _ heq
    subst heq
    simp at h
  · intro p rk sk _ ih hr heq
    injection heq with heq'
    subst heq'
    rw [safeV_dict] at hr
    simp only [Bool.and_eq_true] at hr
    have hall := safeDict_all hr.2
    have hinv : ∀ kv ∈ rk, slookup (kv : String × Value).1 rk = some kv.2 ∧
        safeV kv.2 (p ++ "." ++ kv.1) = true := by
      intro kv hkv
      obtain ⟨k, v⟩ := kv
      exact ⟨slookup_self_of_distinct hr.1 hkv, hall (k, v) hkv⟩
    rw [cv_dict, ih hinv, dictExtras_self]
    rfl
  · intro p rl sl hm _ ih hr heq
    injection heq with heq9
    subst heq9
    rw [safeV_list_methods rl p hm] at hr
    rw [cv_list_methods emb rl rl p hm]
    exact ih hr rfl
  · intro p rl sl hm hf _ ih hr heq
    injection heq with heq9
    subst heq9
    have hm' := Bool.eq_false_iff.2 hm
    rw [safeV_list_fields rl p hm' hf] at hr
    rw [cv_list_fields emb rl rl p hm' hf]
    exact ih hr rfl
  · intro p rl sl hm hf hc _ ih hr heq
    injection heq with heq9
    subst heq9
    have hm' := Bool.eq_false_iff.2 hm
    have hf' := Bool.eq_false_iff.2 hf
    rw [safeV_list_constructors rl p hm' hf' hc] at hr
    rw [cv_list_constructors emb rl rl p hm' hf' hc]
    exact ih hr rfl
  · intro p rl sl hm hf hc hor _ hr heq
    injection heq with heq9
    subst heq9
    have hm' := Bool.eq_false_iff.2 hm
    have hf' := Bool.eq_false_iff.2 hf
    have hc' := Bool.eq_false_iff.2 hc
    simp only [Bool.or_eq_true] at hor
    rw [safeV_list_unordered rl p hm' hf' hc' hor] at hr
    obtain ⟨xs, rfl⟩ := allVStr_exists_strings hr
    rw [cv_list_unordered emb _ _ p hm' hf' hc' hor, pySort_map]
    have he : pyEqList ((sortStrs xs).map .vStr) ((sortStrs xs).map .vStr) = true :=
      (pyEqList_allVStr_left (allVStr_map (sortStrs xs))).2 rfl
    rw [show (do
        let sr ← Except.ok ((sortStrs xs).map Value.vStr)
        let ss ← Except.ok ((sortStrs xs).map Value.vStr)
        Except.ok (if pyEqList sr ss then ([] : List String)
          else [contentMismatchMsg p sr ss])) =
      Except.ok (if pyEqList ((sortStrs xs).map Value.vStr) ((sortStrs xs).map Value.vStr)
          then ([] : List String)
          else [contentMismatchMsg p ((sortStrs xs).map Value.vStr)
            ((sortStrs xs).map Value.vStr)]) from rfl, he]
    rfl
  · intro p rl sl hm hf hc hor hlen hemb _ hr heq
    injection heq with heq9
    subst heq9
    simp at hlen
  · intro p rl sl hm hf hc hor hlen _ _ _ hr heq
    injection heq with heq9
    subst heq9
    simp at hlen
  · intro p rl sl hm hf hc hor hlen _ ih hr heq
    injection heq with heq9
    subst heq9
    have hm' := Bool.eq_false_iff.2 hm
    have hf' := Bool.eq_false_iff.2 hf
    have hc' := Bool.eq_false_iff.2 hc
    have hno := hor
    simp only [Bool.or_eq_true, not_or, Bool.not_eq_true] at hno
    rw [safeV_list_positional rl p hm' hf' hc' hno.1 hno.2] at hr
    rw [cv_list_positional emb rl rl p hm' hf' hc' hno.1 hno.2, if_neg (by simp)]
    exact ih hr rfl
  · intro p r s hnd hnl _ _ heq
    subst heq
    have hscal : isScalar r = true := isScalar_of_selfnot r hnd hnl
    rw [cv_catchall emb r r p hnd hnl]
    simp [pyEq_refl_scalar hscal]
  · intro sl p i _ _
    exact compareZip_nil_left emb sl p i
  · intro p i hd tl _ heq
    cases heq
  · intro p i r rt s st ih1 ih2 hr heq
    injection heq with h1 h2
    subst h1
    subst h2
    rw [safeZip_cons] at hr
    simp only [Bool.and_eq_true] at hr
    rw [compareZip_cons, ih1 hr.1 rfl, ih2 hr.2 rfl]
    rfl
  · intro kind rl sl p e he hr heq
    obtain ⟨m, hm⟩ := buildKeyMap_ok_of_safe hr
    rw [hm] at he
    cases he
  · intro kind rl sl p rm hbr e hbs hr heq
    subst heq
    rw [hbr] at hbs
    cases hbs
  · intro kind rl sl p rm hbr sm hbs ih hr heq
    subst heq
    rw [hbr] at hbs
    injection hbs with hbs'
    subst hbs'
    obtain ⟨ps, hps, hpsinv⟩ := keyPairs_ok_of_safe hr
    have hrm : rm = corpBuild [] ps := by
      rw [buildKeyMap, hps] at hbr
      injection hbr with h
      exact h.symm
    have hgood : ∀ kv ∈ rm, goodKey kind (kv : Value × Value).1 = true :=
      fun kv hkv => (buildKeyMap_inv hr hbr kv hkv).1
    have hpair : rm.Pairwise (fun a b => a.1 ≠ b.1) := by
      rw [hrm]
      exact corpBuild_pairwise (fun kv hkv => (hpsinv kv hkv).1) (by simp)
    have hinv : ∀ kv ∈ rm, pyLookup (kv : Value × Value).1 rm = some kv.2 ∧
        goodKey kind kv.1 = true ∧
        ∃ mp, matchedPath kind p kv.1 = Except.ok mp ∧ safeV kv.2 mp = true := by
      intro kv hkv
      obtain ⟨k, v⟩ := kv
      exact ⟨pyLookup_self_of_pairwise hgood hpair hkv,
        (buildKeyMap_inv hr hbr (k, v) hkv).1,
        (buildKeyMap_inv hr hbr (k, v) hkv).2⟩
    rw [compareColl_ok emb kind rl rl p hbr hbr, ih hinv,
      keyedExtras_self hgood hpair]
    rfl
  · intro kind sm p _
    exact compareKeyedRef_nil emb kind sm p
  · intro kind sm p k' v t hq ih hinv
    have := (hinv (k', v) (List.mem_cons_self _ _)).1
    rw [hq] at this
    cases this
  · intro kind sm p k' v t sv hq e hp hinv
    obtain ⟨-, -, mp, hmp, -⟩ := hinv (k', v) (List.mem_cons_self _ _)
    rw [hp] at hmp
    exact Except.noConfusion hmp
  · intro kind sm p k' v t sv hq mp hp ih1 ih2 hinv
    obtain ⟨hlook, hgk, mp', hmp', hsv⟩ := hinv (k', v) (List.mem_cons_self _ _)
    rw [hq] at hlook
    injection hlook with hlook'
    rw [hp] at hmp'
    injection hmp' with hmpe
    subst hmpe
    rw [compareKeyedRef_cons_found emb kind p hq hp,
      ih1 hsv hlook'.symm,
      ih2 (fun kv hkv => hinv kv (List.mem_cons_of_mem _ hkv))]
    rfl
  · intro skvs p _
    exact compareDictRef_nil emb skvs p
  · intro skvs p k' v t hq ih hinv
    have := (hinv (k', v) (List.mem_cons_self _ _)).1
    rw [hq] at this
    cases this
  · intro skvs p k' v t sv hq ih1 ih2 hinv
    obtain ⟨hlook, hsv⟩ := hinv (k', v) (List.mem_cons_self _ _)
    rw [hq] at hlook
    injection hlook with hlook'
    rw [compareDictRef_cons_found emb p hq,
      ih1 hsv hlook'.symm,
      ih2 (fun kv hkv => hinv kv (List.mem_cons_of_mem _ hkv))]
    rfl

/-- C2: Reflexivity — comparing a valid (hereditarily well-formed, `safeV`)
ClassStructure against itself, at any path and in either differ copy,
returns the empty discrepancy sequence. -/
theorem C2_theorem (emb : Bool) (X : Value) (p : String) (h : safeV X p = true) :
    compare_values emb X X p = Except.ok [] :=
  cv_refl emb X X p h rfl

/-- C2, witness: the scenario-1 class of §8 compared against itself. -/
theorem C2_witness :
    safeV (Value.vDict [("name", Value.vStr "Foo"),
      ("fields", Value.vList [Value.vDict [("name", Value.vStr "x"),
        ("type", Value.vStr "int")]]),
      ("methods", Value.vList []), ("constructors", Value.vList []),
      ("extends", Value.vList []), ("implements", Value.vList [])]) "Class Foo" = true ∧
    compare_values false
      (Value.vDict [("name", Value.vStr "Foo"),
        ("fields", Value.vList [Value.vDict [("name", Value.vStr "x"),
          ("type", Value.vStr "int")]]),
        ("methods", Value.vList []), ("constructors", Value.vList []),
        ("extends", Value.vList []), ("implements", Value.vList [])])
      (Value.vDict [("name", Value.vStr "Foo"),
        ("fields", Value.vList [Value.vDict [("name", Value.vStr "x"),
          ("type", Value.vStr "int")]]),
        ("methods", Value.vList []), ("constructors", Value.vList []),
        ("extends", Value.vList []), ("implements", Value.vList [])])
      "Class Foo" = Except.ok [] := by
  have hsafe : safeV (Value.vDict [("name", Value.vStr "Foo"),
      ("fields", Value.vList [Value.vDict [("name", Value.vStr "x"),
        ("type", Value.vStr "int")]]),
      ("methods", Value.vList []), ("constructors", Value.vList []),
      ("extends", Value.vList []), ("implements", Value.vList [])]) "Class Foo" = true := by
    simp +decide [safeV, safeDict, safeZip, safeKeyed, collKeyFn, matchedPath, goodKey,
      distinctStrKeys, allVStr, strEndsWith, slookup, pyTuple, ensureHashable,
      hashableAll, joinComma, strParts, pyStr, Bind.bind, Except.bind]
  exact ⟨hsafe, C2_theorem false _ _ hsafe⟩

theorem safeKeyed_forall {kind : CollKind} {l : List Value} {p : String} :
    safeKeyed kind l p = true ↔ ∀ m ∈ l, ∃ k mp, collKeyFn kind m = .ok k ∧
      goodKey kind k = true ∧ matchedPath kind p k = .ok mp ∧ safeV m mp = true := by
  induction l with
  | nil => simp [safeKeyed]
  | cons m t ih =>
    constructor
    · intro h
      obtain ⟨hh, ht⟩ := safeKeyed_cons_destruct h
      intro m' hm'
      rcases List.mem_cons.1 hm' with rfl | hmem
      · exact hh
      · exact ih.1 ht m' hmem
    · intro h
      rw [safeKeyed]
      obtain ⟨k, mp, hk, hg, hp, hs⟩ := h m (List.mem_cons_self _ _)
      rw [hk]
      simp only [hp, hg, hs, Bool.true_and, Bool.and_eq_true, and_true]
      exact ih.2 (fun m' hm' => h m' (List.mem_cons_of_mem _ hm'))

theorem keyPairs_perm {kind : CollKind} {p : String} :
    ∀ {l l' : List Value}, l.Perm l' → safeKeyed kind l p = true →
    ∀ {ps ps' : List (Value × Value)}, keyPairs kind l = .ok ps →
      keyPairs kind l' = .ok ps' → ps.Perm ps' := by
  intro l l' hperm
  induction hperm with
  | nil =>
    intro _ ps ps' h h'
    rw [keyPairs] at h h'
    cases h
    cases h'
    exact List.Perm.refl _
  | cons x hp ih =>
    intro hsafe ps ps' h h'
    obtain ⟨⟨k, mp, hk, -, -, -⟩, htail⟩ := safeKeyed_cons_destruct hsafe
    rw [keyPairs, hk] at h h'
    cases ht : keyPairs kind _ with
    | error e =>
      rw [ht] at h
      cases h
    | ok t =>
      rw [ht] at h
      cases ht' : keyPairs kind _ with
      | error e =>
        rw [ht'] at h'
        cases h'
      | ok t' =>
        rw [ht'] at h'
        cases h
        cases h'
        exact List.Perm.cons _ (ih htail ht ht')
  | swap x y l =>
    intro hsafe ps ps' h h'
    obtain ⟨⟨ky, mpy, hky, -, -, -⟩, hrest⟩ := safeKeyed_cons_destruct hsafe
    obtain ⟨⟨kx, mpx, hkx, -, -, -⟩, htail⟩ := safeKeyed_cons_destruct hrest
    rw [keyPairs, hky, keyPairs, hkx] at h
    rw [keyPairs, hkx, keyPairs, hky] at h'
    cases ht : keyPairs kind l with
    | error e =>
      rw [ht] at h
      cases h
    | ok t =>
      rw [ht] at h h'
      cases h
      cases h'
      exact List.Perm.swap _ _ _
  | trans h12 h23 ih1 ih2 =>
    intro hsafe ps ps' h h'
    have hsafe2 : safeKeyed kind _ p = true :=
      safeKeyed_forall.2 (fun m hm => safeKeyed_forall.1 hsafe m (h12.mem_iff.2 hm))
    obtain ⟨mid, hmid⟩ : ∃ mid, keyPairs kind _ = .ok mid := by
      obtain ⟨mid, hmid, -⟩ := keyPairs_ok_of_safe hsafe2
      exact ⟨mid, hmid⟩
    exact (ih1 hsafe h hmid).trans (ih2 hsafe2 hmid h')

theorem setLastPy_append {k v : Value} {acc : List (Value × Value)}
    (h : ∀ kv ∈ acc, pyEq (kv : Value × Value).1 k = false) :
    setLastPy k v acc = acc ++ [(k, v)] := by
  induction acc with
  | nil => rfl
  | cons hd t ih =>
    obtain ⟨k1, v1⟩ := hd
    simp only [setLastPy]
    rw [h (k1, v1) (List.mem_cons_self _ _)]
    simp only [Bool.false_eq_true, if_false, List.cons_append]
    rw [ih (fun kv hkv => h kv (List.mem_cons_of_mem _ hkv))]

theorem corpBuild_no_collision {kind : CollKind} :
    ∀ {ps : List (Value × Value)},
    (∀ kv ∈ ps, goodKey kind (kv : Value × Value).1 = true) →
    ps.Pairwise (fun a b => a.1 ≠ b.1) →
    ∀ acc : List (Value × Value), (∀ a ∈ acc, ∀ b ∈ ps, (a : Value × Value).1 ≠ (b : Value × Value).1) →
    corpBuild acc ps = acc ++ ps := by
  intro ps
  induction ps with
  | nil =>
    intro _ _ acc _
    simp [corpBuild]
  | cons hd t ih =>
    intro hg hp acc hacc
    obtain ⟨k, v⟩ := hd
    rw [List.pairwise_cons] at hp
    simp only [corpBuild]
    have hset : setLastPy k v acc = acc ++ [(k, v)] := by
      refine setLastPy_append ?_
      intro kv hkv
      cases hpe : pyEq kv.1 k with
      | false => rfl
      | true =>
        have hgk : goodKey kind k = true := hg (k, v) (List.mem_cons_self _ _)
        have : kv.1 = k := (goodKey_pyEq_right hgk).1 hpe
        exact absurd this (hacc kv hkv (k, v) (List.mem_cons_self _ _))
    rw [hset, ih (fun kv hkv => hg kv (List.mem_cons_of_mem _ hkv)) hp.2
      (acc ++ [(k, v)]) ?_, List.append_assoc]
    · rfl
    · intro a ha b hb
      rcases List.mem_append.1 ha with h1 | h1
      · exact hacc a h1 b (List.mem_cons_of_mem _ hb)
      · rw [List.mem_singleton] at h1
        subst h1
        exact hp.1 b hb

theorem buildKeyMap_eq_pairs {kind : CollKind} {l : List Value}
    {ps : List (Value × Value)} (hk : keyPairs kind l = .ok ps)
    (hg : ∀ kv ∈ ps, goodKey kind (kv : Value × Value).1 = true)
    (hp : ps.Pairwise (fun a b => a.1 ≠ b.1)) :
    buildKeyMap kind l = .ok ps := by
  rw [buildKeyMap, hk]
  show Except.ok (corpBuild [] ps) = Except.ok ps
  rw [corpBuild_no_collision hg hp [] (by simp)]
  rfl

theorem pyLookup_eq_none_iff {k : Value} {m : List (Value × Value)} :
    pyLookup k m = none ↔ ∀ kv ∈ m, pyEq (kv : Value × Value).1 k = false := by
  induction m with
  | nil => simp [pyLookup]
  | cons hd t ih =>
    obtain ⟨k1, v1⟩ := hd
    simp only [pyLookup]
    cases hpe : pyEq k1 k with
    | true =>
      simp only [if_true]
      constructor
      · intro h
        cases h
      · intro h
        have := h (k1, v1) (List.mem_cons_self _ _)
        rw [hpe] at this
        cases this
    | false =>
      simp only [Bool.false_eq_true, if_false]
      rw [ih]
      constructor
      · intro h kv hkv
        rcases List.mem_cons.1 hkv with rfl | hmem
        · exact hpe
        · exact h kv hmem
      · intro h kv hkv
        exact h kv (List.mem_cons_of_mem _ hkv)

theorem pyLookup_perm {kind : CollKind} {m m' : List (Value × Value)}
    (hg : ∀ kv ∈ m, goodKey kind (kv : Value × Value).1 = true)
    (hp : m.Pairwise (fun a b => a.1 ≠ b.1))
    (hperm : m.Perm m') (k : Value) : pyLookup k m = pyLookup k m' := by
  cases h : pyLookup k m with
  | some v =>
    obtain ⟨k2, hmem, hkeq⟩ := pyLookup_mem h
    have hgk2 : goodKey kind k2 = true := hg (k2, v) hmem
    have hk : k = k2 := (goodKey_pyEq_left hgk2).1 hkeq
    have hm' : (k2, v) ∈ m' := hperm.mem_iff.1 hmem
    have hg' : ∀ kv ∈ m', goodKey kind (kv : Value × Value).1 = true :=
      fun kv hkv => hg kv (hperm.mem_iff.2 hkv)
    have hp' : m'.Pairwise (fun a b => a.1 ≠ b.1) :=
      (hperm.pairwise_iff (fun hab e => hab e.symm)).1 hp
    rw [hk]
    exact (pyLookup_self_of_pairwise hg' hp' hm').symm
  | none =>
    rw [pyLookup_eq_none_iff] at h
    have : pyLookup k m' = none :=
      pyLookup_eq_none_iff.2 (fun kv hkv => h kv (hperm.mem_iff.2 hkv))
    rw [this]

theorem pyLookup_safeV {kind : CollKind} {p : String} {sm : List (Value × Value)}
    {k' sv : Value} {mp : String}
    (hs : ∀ kv ∈ sm, goodKey kind (kv : Value × Value).1 = true ∧
      ∃ mp0, matchedPath kind p kv.1 = Except.ok mp0 ∧ safeV kv.2 mp0 = true)
    (hq : pyLookup k' sm = some sv) (hmp : matchedPath kind p k' = Except.ok mp) :
    safeV sv mp = true := by
  obtain ⟨k2, hmem, hkeq⟩ := pyLookup_mem hq
  obtain ⟨hgk2, mp2, hmp2, hssv⟩ := hs (k2, sv) hmem
  have hk : k' = k2 := (goodKey_pyEq_left hgk2).1 hkeq
  rw [← hk] at hmp2
  rw [hmp] at hmp2
  injection hmp2 with h
  subst h
  exact hssv

theorem compareKeyedRef_total (emb : Bool) {kind : CollKind} {p : String} :
    ∀ {rm sm : List (Value × Value)},
    (∀ kv ∈ rm, goodKey kind (kv : Value × Value).1 = true ∧
      ∃ mp, matchedPath kind p kv.1 = Except.ok mp ∧ safeV kv.2 mp = true) →
    (∀ kv ∈ sm, goodKey kind (kv : Value × Value).1 = true ∧
      ∃ mp, matchedPath kind p kv.1 = Except.ok mp ∧ safeV kv.2 mp = true) →
    ∃ ds, compareKeyedRef emb kind rm sm p = Except.ok ds := by
  intro rm
  induction rm with
  | nil => exact fun {sm} _ _ => ⟨[], compareKeyedRef_nil emb kind sm p⟩
  | cons hd t ih =>
    intro sm hr hs
    obtain ⟨k', v⟩ := hd
    obtain ⟨hgk, mp, hmp, hsv⟩ := hr (k', v) (List.mem_cons_self _ _)
    obtain ⟨ds, hds⟩ := ih (fun kv hkv => hr kv (List.mem_cons_of_mem _ hkv)) hs
    cases hq : pyLookup k' sm with
    | none =>
      exact ⟨missingItemMsg kind p k' :: ds,
        by rw [compareKeyedRef_cons_missing emb kind p hq, hds]; rfl⟩
    | some sv =>
      have hssv := pyLookup_safeV hs hq hmp
      obtain ⟨d, hd⟩ := cv_total emb v sv mp hsv hssv
      exact ⟨d ++ ds,
        by rw [compareKeyedRef_cons_found emb kind p hq hmp, hd, hds]; rfl⟩

theorem compareKeyedRef_student_perm (emb : Bool) {kind : CollKind} {p : String}
    (rm : List (Value × Value)) {sm sm' : List (Value × Value)}
    (hg : ∀ kv ∈ sm, goodKey kind (kv : Value × Value).1 = true)
    (hp : sm.Pairwise (fun a b => a.1 ≠ b.1)) (hperm : sm.Perm sm') :
    compareKeyedRef emb kind rm sm p = compareKeyedRef emb kind rm sm' p := by
  induction rm with
  | nil => rw [compareKeyedRef_nil, compareKeyedRef_nil]
  | cons hd t ih =>
    obtain ⟨k', v⟩ := hd
    have hlk := pyLookup_perm hg hp hperm k'
    cases hq : pyLookup k' sm with
    | none =>
      have hq' : pyLookup k' sm' = none := by rw [← hlk]; exact hq
      rw [compareKeyedRef_cons_missing emb kind p hq,
        compareKeyedRef_cons_missing emb kind p hq', ih]
    | some sv =>
      have hq' : pyLookup k' sm' = some sv := by rw [← hlk]; exact hq
      cases hmp : matchedPath kind p k' with
      | error e =>
        rw [compareKeyedRef_cons_patherr emb kind p hq hmp,
          compareKeyedRef_cons_patherr emb kind p hq' hmp]
      | ok mp =>
        rw [compareKeyedRef_cons_found emb kind p hq hmp,
          compareKeyedRef_cons_found emb kind p hq' hmp, ih]

theorem compareKeyedRef_cons_contrib (emb : Bool) {kind : CollKind} {p : String}
    {sm : List (Value × Value)} {e : Value × Value}
    (hgk : goodKey kind e.1 = true)
    (hmps : ∃ mp, matchedPath kind p e.1 = Except.ok mp ∧ safeV e.2 mp = true)
    (hs : ∀ kv ∈ sm, goodKey kind (kv : Value × Value).1 = true ∧
      ∃ mp, matchedPath kind p kv.1 = Except.ok mp ∧ safeV kv.2 mp = true) :
    ∃ c, ∀ rest : List (Value × Value),
      compareKeyedRef emb kind (e :: rest) sm p = (do
        let ds ← compareKeyedRef emb kind rest sm p
        Except.ok (c ++ ds)) := by
  obtain ⟨k', v⟩ := e
  obtain ⟨mp, hmp, hsv⟩ := hmps
  cases hq : pyLookup k' sm with
  | none =>
    exact ⟨[missingItemMsg kind p k'],
      fun rest => by rw [compareKeyedRef_cons_missing emb kind p hq]; rfl⟩
  | some sv =>
    have hssv := pyLookup_safeV hs hq hmp
    obtain ⟨d, hd⟩ := cv_total emb v sv mp hsv hssv
    exact ⟨d, fun rest => by rw [compareKeyedRef_cons_found emb kind p hq hmp, hd]; rfl⟩

theorem compareKeyedRef_ref_perm (emb : Bool) {kind : CollKind} {p : String}
    {sm : List (Value × Value)}
    (hs : ∀ kv ∈ sm, goodKey kind (kv : Value × Value).1 = true ∧
      ∃ mp, matchedPath kind p kv.1 = Except.ok mp ∧ safeV kv.2 mp = true) :
    ∀ {rm rm' : List (Value × Value)}, rm.Perm rm' →
    (∀ kv ∈ rm, goodKey kind (kv : Value × Value).1 = true ∧
      ∃ mp, matchedPath kind p kv.1 = Except.ok mp ∧ safeV kv.2 mp = true) →
    ∀ {ds ds' : List String}, compareKeyedRef emb kind rm sm p = Except.ok ds →
      compareKeyedRef emb kind rm' sm p = Except.ok ds' → ds.Perm ds' := by
  intro rm rm' hperm
  induction hperm with
  | nil =>
    intro _ ds ds' h h'
    rw [compareKeyedRef_nil] at h h'
    cases h
    cases h'
    exact List.Perm.refl _
  | cons x hp12 ih =>
    intro hr ds ds' h h'
    obtain ⟨c, hc⟩ := compareKeyedRef_cons_contrib emb
      (hr x (List.mem_cons_self _ _)).1 (hr x (List.mem_cons_self _ _)).2 hs
    rw [hc _] at h
    rw [hc _] at h'
    cases ht : compareKeyedRef emb kind _ sm p with
    | error e =>
      rw [ht] at h
      simp only [Bind.bind, Except.bind] at h
      cases h
    | ok t =>
      rw [ht] at h
      simp only [Bind.bind, Except.bind] at h
      cases ht' : compareKeyedRef emb kind _ sm p with
      | error e =>
        rw [ht'] at h'
        simp only [Bind.bind, Except.bind] at h'
        cases h'
      | ok t' =>
        rw [ht'] at h'
        simp only [Bind.bind, Except.bind] at h'
        cases h
        cases h'
        exact List.Perm.append_left c
          (ih (fun kv hkv => hr kv (List.mem_cons_of_mem _ hkv)) ht ht')
  | swap x y l =>
    intro hr ds ds' h h'
    obtain ⟨cx, hcx⟩ := compareKeyedRef_cons_contrib emb
      (hr x (List.mem_cons_of_mem _ (List.mem_cons_self _ _))).1
      (hr x (List.mem_cons_of_mem _ (List.mem_cons_self _ _))).2 hs
    obtain ⟨cy, hcy⟩ := compareKeyedRef_cons_contrib emb
      (hr y (List.mem_cons_self _ _)).1 (hr y (List.mem_cons_self _ _)).2 hs
    rw [hcy _, hcx _] at h
    rw [hcx _, hcy _] at h'
    cases ht : compareKeyedRef emb kind l sm p with
    | error e =>
      rw [ht] at h
      simp only [Bind.bind, Except.bind] at h
      cases h
    | ok t =>
      rw [ht] at h h'
      simp only [Bind.bind, Except.bind] at h h'
      cases h
      cases h'
      rw [← List.append_assoc, ← List.append_assoc]
      exact List.Perm.append_right t List.perm_append_comm
  | trans h12 h23 ih1 ih2 =>
    intro hr ds ds' h h'
    have hrmid : ∀ kv ∈ _, goodKey kind (kv : Value × Value).1 = true ∧
        ∃ mp, matchedPath kind p kv.1 = Except.ok mp ∧ safeV kv.2 mp = true :=
      fun kv hkv => hr kv (h12.mem_iff.2 hkv)
    obtain ⟨dm, hdm⟩ := compareKeyedRef_total emb hrmid hs
    exact (ih1 hr h hdm).trans (ih2 hrmid hdm h')

theorem keyedExtras_ref_perm {kind : CollKind} {rm rm' sm : List (Value × Value)}
    {p : String}
    (hg : ∀ kv ∈ rm, goodKey kind (kv : Value × Value).1 = true)
    (hp : rm.Pairwise (fun a b => a.1 ≠ b.1)) (hperm : rm.Perm rm') :
    keyedExtras kind rm sm p = keyedExtras kind rm' sm p := by
  rw [keyedExtras, keyedExtras]
  have : sm.filter (fun kv => (pyLookup kv.1 rm).isNone) =
      sm.filter (fun kv => (pyLookup kv.1 rm').isNone) := by
    apply List.filter_congr
    intro kv hkv
    rw [pyLookup_perm hg hp hperm kv.1]
  rw [this]

theorem keyedExtras_student_perm (kind : CollKind) (rm : List (Value × Value))
    {sm sm' : List (Value × Value)} (p : String) (hperm : sm.Perm sm') :
    (keyedExtras kind rm sm p).Perm (keyedExtras kind rm sm' p) :=
  (hperm.filter _).map _

/-- Permutation invariance of a keyed-collection comparison: when every
entry on each side is a well-formed mapping whose key construction
succeeds with a string-shaped key (`safeKeyed`) and the keys within each
side are pairwise distinct, permuting either side changes the resulting
discrepancy sequence at most up to permutation — the discrepancy multiset
(hence set) is unchanged. -/
theorem compareColl_perm (emb : Bool) (kind : CollKind)
    {rl rl' sl sl' : List Value} (p : String)
    (hpr : rl.Perm rl') (hpsl : sl.Perm sl')
    (hsr : safeKeyed kind rl p = true) (hss : safeKeyed kind sl p = true)
    {ps qs : List (Value × Value)}
    (hkr : keyPairs kind rl = .ok ps) (hks : keyPairs kind sl = .ok qs)
    (hdr : ps.Pairwise (fun a b => a.1 ≠ b.1))
    (hds : qs.Pairwise (fun a b => a.1 ≠ b.1)) :
    ∃ ds ds', compareColl emb kind rl sl p = Except.ok ds ∧
      compareColl emb kind rl' sl' p = Except.ok ds' ∧ ds.Perm ds' := by
  obtain ⟨ps0, hps0, hinvr⟩ := keyPairs_ok_of_safe hsr
  rw [hkr] at hps0
  injection hps0 with hps0e
  subst hps0e
  obtain ⟨qs0, hqs0, hinvs⟩ := keyPairs_ok_of_safe hss
  rw [hks] at hqs0
  injection hqs0 with hqs0e
  subst hqs0e
  have hsr' : safeKeyed kind rl' p = true :=
    safeKeyed_forall.2 (fun m hm => safeKeyed_forall.1 hsr m (hpr.mem_iff.2 hm))
  have hss' : safeKeyed kind sl' p = true :=
    safeKeyed_forall.2 (fun m hm => safeKeyed_forall.1 hss m (hpsl.mem_iff.2 hm))
  obtain ⟨ps', hps', hinvr'⟩ := keyPairs_ok_of_safe hsr'
  obtain ⟨qs', hqs', hinvs'⟩ := keyPairs_ok_of_safe hss'
  have hpp : ps.Perm ps' := keyPairs_perm hpr hsr hkr hps'
  have hqq : qs.Perm qs' := keyPairs_perm hpsl hss hks hqs'
  have hdr' : ps'.Pairwise (fun a b => a.1 ≠ b.1) :=
    (hpp.pairwise_iff (fun hab e => hab e.symm)).1 hdr
  have hds' : qs'.Pairwise (fun a b => a.1 ≠ b.1) :=
    (hqq.pairwise_iff (fun hab e => hab e.symm)).1 hds
  have hgr : ∀ kv ∈ ps, goodKey kind (kv : Value × Value).1 = true :=
    fun kv hkv => (hinvr kv hkv).1
  have hgs : ∀ kv ∈ qs, goodKey kind (kv : Value × Value).1 = true :=
    fun kv hkv => (hinvs kv hkv).1
  have hgr' : ∀ kv ∈ ps', goodKey kind (kv : Value × Value).1 = true :=
    fun kv hkv => (hinvr' kv hkv).1
  have hbr : buildKeyMap kind rl = .ok ps := buildKeyMap_eq_pairs hkr hgr hdr
  have hbs : buildKeyMap kind sl = .ok qs := buildKeyMap_eq_pairs hks hgs hds
  have hbr' : buildKeyMap kind rl' = .ok ps' := buildKeyMap_eq_pairs hps' hgr' hdr'
  have hbs' : buildKeyMap kind sl' = .ok qs' :=
    buildKeyMap_eq_pairs hqs' (fun kv hkv => (hinvs' kv hkv).1) hds'
  obtain ⟨ds1, hds1⟩ := compareKeyedRef_total emb hinvr hinvs
  obtain ⟨ds2, hds2⟩ := compareKeyedRef_total emb hinvr' hinvs'
  refine ⟨ds1 ++ keyedExtras kind ps qs p, ds2 ++ keyedExtras kind ps' qs' p,
    ?_, ?_, ?_⟩
  · rw [compareColl_ok emb kind rl sl p hbr hbs, hds1]
    rfl
  · rw [compareColl_ok emb kind rl' sl' p hbr' hbs', hds2]
    rfl
  · have hds2' : compareKeyedRef emb kind ps' qs p = Except.ok ds2 := by
      rw [compareKeyedRef_student_perm emb ps' hgs hds hqq]
      exact hds2
    have hperm1 : ds1.Perm ds2 :=
      compareKeyedRef_ref_perm emb hinvs hpp hinvr hds1 hds2'
    have hex1 : keyedExtras kind ps qs p = keyedExtras kind ps' qs p :=
      keyedExtras_ref_perm hgr hdr hpp
    have hex2 : (keyedExtras kind ps' qs p).Perm (keyedExtras kind ps' qs' p) :=
      keyedExtras_student_perm kind ps' p hqq
    rw [hex1]
    exact hperm1.append hex2

/-- C4, counterexample: with duplicate keys within the reference side,
permuting that side changes the discrepancy set.  Two methods share the
key `("a", ())`; last-write-wins keeps only the later one, so the order
decides which body is compared: `[m1, m2]` vs `[m1]` reports a value
mismatch on `x`, while the permuted `[m2, m1]` vs `[m1]` reports
nothing. -/
theorem C4_counterexample :
    ([Value.vDict [("name", Value.vStr "a"), ("params", Value.vList []),
        ("x", Value.vInt 1)],
      Value.vDict [("name", Value.vStr "a"), ("params", Value.vList []),
        ("x", Value.vInt 2)]] : List Value).Perm
      [Value.vDict [("name", Value.vStr "a"), ("params", Value.vList []),
        ("x", Value.vInt 2)],
       Value.vDict [("name", Value.vStr "a"), ("params", Value.vList []),
        ("x", Value.vInt 1)]] ∧
    compare_methods false
      [Value.vDict [("name", Value.vStr "a"), ("params", Value.vList []),
        ("x", Value.vInt 1)],
       Value.vDict [("name", Value.vStr "a"), ("params", Value.vList []),
        ("x", Value.vInt 2)]]
      [Value.vDict [("name", Value.vStr "a"), ("params", Value.vList []),
        ("x", Value.vInt 1)]] "M" =
      Except.ok ["M.a().x - Value mismatch: expected 2, got 1"] ∧
    compare_methods false
      [Value.vDict [("name", Value.vStr "a"), ("params", Value.vList []),
        ("x", Value.vInt 2)],
       Value.vDict [("name", Value.vStr "a"), ("params", Value.vList []),
        ("x", Value.vInt 1)]]
      [Value.vDict [("name", Value.vStr "a"), ("params", Value.vList []),
        ("x", Value.vInt 1)]] "M" = Except.ok [] := by
  have hkk : pyEq (Value.vList [Value.vStr "a", Value.vList []])
      (Value.vList [Value.vStr "a", Value.vList []]) = true := by
    simp [pyEq, pyEqList]
  have hq1 : pyLookup (Value.vList [Value.vStr "a", Value.vList []])
      [(Value.vList [Value.vStr "a", Value.vList []],
        Value.vDict [("name", Value.vStr "a"), ("params", Value.vList []),
          ("x", Value.vInt 1)])] =
      some (Value.vDict [("name", Value.vStr "a"), ("params", Value.vList []),
        ("x", Value.vInt 1)]) := by
    simp [pyLookup, hkk]
  have hmp1 : matchedPath CollKind.methods "M"
      (Value.vList [Value.vStr "a", Value.vList []]) = Except.ok "M.a()" := by rfl
  have hname : compare_values false (.vStr "a") (.vStr "a")
      ("M.a()" ++ "." ++ "name") = Except.ok [] := by
    rw [cv_scalar_eval false (.vStr "a") (.vStr "a") ("M.a()" ++ "." ++ "name") rfl rfl]
    simp +decide [typeName, pyEq]
  have hparams : compare_values false (.vList []) (.vList [])
      ("M.a()" ++ "." ++ "params") = Except.ok [] := by
    rw [cv_list_positional false [] [] _ (by decide) (by decide) (by decide)
      (by decide) (by decide), if_neg (by decide), compareZip_nil_left]
  have hx21 : compare_values false (.vInt 2) (.vInt 1)
      ("M.a()" ++ "." ++ "x") = Except.ok ["M.a().x - Value mismatch: expected 2, got 1"] := by
    rw [cv_scalar_eval false (.vInt 2) (.vInt 1) ("M.a()" ++ "." ++ "x") rfl rfl]
    simp +decide [typeName, pyEq, valueMismatchMsg, pyStr]
  have hx11 : compare_values false (.vInt 1) (.vInt 1)
      ("M.a()" ++ "." ++ "x") = Except.ok [] := by
    rw [cv_scalar_eval false (.vInt 1) (.vInt 1) ("M.a()" ++ "." ++ "x") rfl rfl]
    simp +decide [typeName, pyEq]
  have q1 : slookup "name" [("name", Value.vStr "a"), ("params", Value.vList []),
      ("x", Value.vInt 1)] = some (Value.vStr "a") := rfl
  have q2 : slookup "params" [("name", Value.vStr "a"), ("params", Value.vList []),
      ("x", Value.vInt 1)] = some (Value.vList []) := rfl
  have q3 : slookup "x" [("name", Value.vStr "a"), ("params", Value.vList []),
      ("x", Value.vInt 1)] = some (Value.vInt 1) := rfl
  have hcv21 : compare_values false
      (Value.vDict [("name", Value.vStr "a"), ("params", Value.vList []),
        ("x", Value.vInt 2)])
      (Value.vDict [("name", Value.vStr "a"), ("params", Value.vList []),
        ("x", Value.vInt 1)]) "M.a()" =
      Except.ok ["M.a().x - Value mismatch: expected 2, got 1"] := by
    rw [cv_dict, compareDictRef_cons_found false "M.a()" q1, hname,
      compareDictRef_cons_found false "M.a()" q2, hparams,
      compareDictRef_cons_found false "M.a()" q3, hx21, compareDictRef_nil]
    rfl
  have hcv11 : compare_values false
      (Value.vDict [("name", Value.vStr "a"), ("params", Value.vList []),
        ("x", Value.vInt 1)])
      (Value.vDict [("name", Value.vStr "a"), ("params", Value.vList []),
        ("x", Value.vInt 1)]) "M.a()" = Except.ok [] := by
    rw [cv_dict, compareDictRef_cons_found false "M.a()" q1, hname,
      compareDictRef_cons_found false "M.a()" q2, hparams,
      compareDictRef_cons_found false "M.a()" q3, hx11, compareDictRef_nil]
    rfl
  have hb1 : buildKeyMap CollKind.methods
      [Value.vDict [("name", Value.vStr "a"), ("params", Value.vList []),
        ("x", Value.vInt 1)],
       Value.vDict [("name", Value.vStr "a"), ("params", Value.vList []),
        ("x", Value.vInt 2)]] =
      Except.ok [(Value.vList [Value.vStr "a", Value.vList []],
        Value.vDict [("name", Value.vStr "a"), ("params", Value.vList []),
          ("x", Value.vInt 2)])] := by
    simp [buildKeyMap, keyPairs, collKeyFn, slookup, pyTuple, ensureHashable,
      hashableAll, corpBuild, setLastPy, hkk, Bind.bind, Except.bind]
  have hb2 : buildKeyMap CollKind.methods
      [Value.vDict [("name", Value.vStr "a"), ("params", Value.vList []),
        ("x", Value.vInt 2)],
       Value.vDict [("name", Value.vStr "a"), ("params", Value.vList []),
        ("x", Value.vInt 1)]] =
      Except.ok [(Value.vList [Value.vStr "a", Value.vList []],
        Value.vDict [("name", Value.vStr "a"), ("params", Value.vList []),
          ("x", Value.vInt 1)])] := by
    simp [buildKeyMap, keyPairs, collKeyFn, slookup, pyTuple, ensureHashable,
      hashableAll, corpBuild, setLastPy, hkk, Bind.bind, Except.bind]
  have hbs : buildKeyMap CollKind.methods
      [Value.vDict [("name", Value.vStr "a"), ("params", Value.vList []),
        ("x", Value.vInt 1)]] =
      Except.ok [(Value.vList [Value.vStr "a", Value.vList []],
        Value.vDict [("name", Value.vStr "a"), ("params", Value.vList []),
          ("x", Value.vInt 1)])] := by
    simp [buildKeyMap, keyPairs, collKeyFn, slookup, pyTuple, ensureHashable,
      hashableAll, corpBuild, setLastPy, Bind.bind, Except.bind]
  have hex : keyedExtras CollKind.methods
      [(Value.vList [Value.vStr "a", Value.vList []],
        Value.vDict [("name", Value.vStr "a"), ("params", Value.vList []),
          ("x", Value.vInt 2)])]
      [(Value.vList [Value.vStr "a", Value.vList []],
        Value.vDict [("name", Value.vStr "a"), ("params", Value.vList []),
          ("x", Value.vInt 1)])] "M" = [] := by
    simp [keyedExtras, pyLookup, hkk]
  have hex2 : keyedExtras CollKind.methods
      [(Value.vList [Value.vStr "a", Value.vList []],
        Value.vDict [("name", Value.vStr "a"), ("params", Value.vList []),
          ("x", Value.vInt 1)])]
      [(Value.vList [Value.vStr "a", Value.vList []],
        Value.vDict [("name", Value.vStr "a"), ("params", Value.vList []),
          ("x", Value.vInt 1)])] "M" = [] := by
    simp [keyedExtras, pyLookup, hkk]
  refine ⟨List.Perm.swap _ _ _, ?_, ?_⟩
  · rw [compare_methods, compareColl_ok false CollKind.methods _ _ "M" hb1 hbs,
      compareKeyedRef_cons_found false CollKind.methods "M" hq1 hmp1, hcv21,
      compareKeyedRef_nil, hex]
    rfl
  · rw [compare_methods, compareColl_ok false CollKind.methods _ _ "M" hb2 hbs,
      compareKeyedRef_cons_found false CollKind.methods "M" hq1 hmp1, hcv11,
      compareKeyedRef_nil, hex2]
    rfl

/-- C4, amended: permuting either side of `compare_methods` leaves the
discrepancy multiset (hence set) unchanged PROVIDED the method keys
within each side are pairwise distinct and every entry is a well-formed
mapping with string name / string parameter sequence; with duplicate
keys the last-write-wins collapse makes the result order-dependent
(`C4_counterexample`). -/
theorem C4_theorem (emb : Bool) {rl rl' sl sl' : List Value} (p : String)
    (hpr : rl.Perm rl') (hpsl : sl.Perm sl')
    (hsr : safeKeyed .methods rl p = true) (hss : safeKeyed .methods sl p = true)
    {ps qs : List (Value × Value)}
    (hkr : keyPairs .methods rl = .ok ps) (hks : keyPairs .methods sl = .ok qs)
    (hdr : ps.Pairwise (fun a b => a.1 ≠ b.1))
    (hds : qs.Pairwise (fun a b => a.1 ≠ b.1)) :
    ∃ ds ds', compare_methods emb rl sl p = Except.ok ds ∧
      compare_methods emb rl' sl' p = Except.ok ds' ∧ ds.Perm ds' := by
  rw [compare_methods, compare_methods]
  exact compareColl_perm emb .methods p hpr hpsl hsr hss hkr hks hdr hds

/-- C4, witness: two distinct-keyed methods permuted on the reference
side against a one-method candidate — the theorem yields both runs and
the permutation of their discrepancy lists. -/
theorem C4_witness :
    ∃ ds ds', compare_methods false
      [Value.vDict [("name", Value.vStr "a"), ("params", Value.vList [])],
       Value.vDict [("name", Value.vStr "b"), ("params", Value.vList [])]]
      [Value.vDict [("name", Value.vStr "a"), ("params", Value.vList [])]] "M" =
        Except.ok ds ∧
      compare_methods false
        [Value.vDict [("name", Value.vStr "b"), ("params", Value.vList [])],
         Value.vDict [("name", Value.vStr "a"), ("params", Value.vList [])]]
        [Value.vDict [("name", Value.vStr "a"), ("params", Value.vList [])]] "M" =
          Except.ok ds' ∧ ds.Perm ds' :=
  C4_theorem false "M" (List.Perm.swap _ _ _) (List.Perm.refl _)
    (by simp +decide [safeKeyed, collKeyFn, matchedPath, goodKey, slookup, pyTuple,
      ensureHashable, hashableAll, joinComma, strParts, pyStr, allVStr, safeV,
      safeDict, safeZip, strEndsWith, distinctStrKeys, Bind.bind, Except.bind])
    (by simp +decide [safeKeyed, collKeyFn, matchedPath, goodKey, slookup, pyTuple,
      ensureHashable, hashableAll, joinComma, strParts, pyStr, allVStr, safeV,
      safeDict, safeZip, strEndsWith, distinctStrKeys, Bind.bind, Except.bind])
    rfl rfl
    (by simp +decide [List.pairwise_cons, slookup, Option.getD])
    (by simp)

end UmlDiff
